import Mathlib

/-!
html_to_md: the extraction and serialization pipeline.

A shallow embedding of `convert.js` (static front end, cheerio) and of
`tampermonkey-export-md.user.js` (live front end, DOM), followed by theorems
about them.

A JavaScript string is a sequence of UTF-16 code units; `Str` is the list of
their numeric values, so `slice`, `length` and the regular expressions (none
has the `u` flag) work code unit by code unit, as they do in JavaScript. A code
unit is below 65536; the theorems hold for every list of numbers, and every
concrete input below is ASCII.

`path.basename`, `new Date()` and the browser's `innerText` are outside the
two files: the functions that use them take them as arguments.
-/

namespace HtmlToMd

/-! ## Strings -/

/-- A JavaScript string: its UTF-16 code units. -/
abbrev Str := List Nat

/-- The code units of a literal (every literal below is ASCII). -/
def lit (s : String) : Str := s.toList.map Char.toNat

/-- Code unit of the backtick. -/
abbrev BT : Nat := 96
/-- Code unit of the line feed. -/
abbrev LF : Nat := 10
/-- Code unit of the carriage return. -/
abbrev CR : Nat := 13

/-- WhiteSpace and LineTerminator code units, the ones `String.prototype.trim`
removes: TAB, LF, VT, FF, CR, SP, NBSP, U+1680, U+2000..U+200A, U+2028, U+2029,
U+202F, U+205F, U+3000, U+FEFF. -/
def isWhiteSpace (c : Nat) : Bool :=
  c == 9 || c == 10 || c == 11 || c == 12 || c == 13 || c == 32 || c == 160 ||
  c == 5760 || (8192 ≤ c && c ≤ 8202) || c == 8232 || c == 8233 || c == 8239 ||
  c == 8287 || c == 12288 || c == 65279

/-- Left half of `trim`: drop the leading white space. -/
def trimStart (s : Str) : Str := s.dropWhile isWhiteSpace

/-- Right half of `trim`: drop the trailing white space. -/
def trimEnd (s : Str) : Str := (s.reverse.dropWhile isWhiteSpace).reverse

/-- `String.prototype.trim`. -/
def trim (s : Str) : Str := trimEnd (trimStart s)

/-- `String.prototype.includes`: `p` occurs in `s` as a substring. -/
def includes (s p : Str) : Bool := s.tails.any (fun t => p.isPrefixOf t)

/-- `String.prototype.startsWith`. -/
def startsWith (s p : Str) : Bool := p.isPrefixOf s

/-! ## Regular expressions

A pattern is modelled by its matcher at the current position: the number of
code units the match consumes, `0` when the pattern does not match there (no
pattern of this program matches the empty string). -/

/-- `s.replace(re, repl)` for a global (`g`) regular expression: scan left to
right; where the pattern matches, emit the replacement and continue after the
match; elsewhere copy one code unit. The first argument counts the code units
of the current match that are still to be consumed. -/
def replaceAll (re : Str → Nat) (repl : Str) : Nat → Str → Str
  | _, [] => []
  | skip + 1, _ :: rest => replaceAll re repl skip rest
  | 0, c :: rest =>
    match re (c :: rest) with
    | 0 => c :: replaceAll re repl 0 rest
    | k + 1 => repl ++ replaceAll re repl k rest

/-- A pattern that is a literal sequence of code units. -/
def reLit (p : Str) (s : Str) : Nat := if p.isPrefixOf s then p.length else 0

/-- The pattern of three backticks. -/
def reTripleBacktick : Str → Nat := reLit [BT, BT, BT]

/-- The pattern `\r\n`. -/
def reCRLF : Str → Nat := reLit [CR, LF]

/-- The pattern `\n{3,}`: a greedy run of line feeds, at least three. -/
def reLF3 (s : Str) : Nat :=
  let n := (s.takeWhile (fun c => c == LF)).length
  if 3 ≤ n then n else 0

/-- The characters of the class `[\/\\?%*:|"<>]`:
`/ \ ? % * : | " < >`. -/
def forbiddenChars : List Nat := [47, 92, 63, 37, 42, 58, 124, 34, 60, 62]

/-- The pattern `[\/\\?%*:|"<>]`: one code unit of the class. -/
def reForbidden : Str → Nat
  | [] => 0
  | c :: _ => if c ∈ forbiddenChars then 1 else 0

/-! ## Text utilities (both front ends) -/

/-- `escapeTripleBackticks`: `s.replace(/three backticks/g, two backticks, a
space, a backtick)`. The same function in both files. -/
def escapeTripleBackticks (s : Str) : Str :=
  replaceAll reTripleBacktick [BT, BT, 32, BT] 0 s

/-- `sanitizeFileName`:
`name.replace(/[\/\\?%*:|"<>]/g, '-').slice(0, 80).trim() || 'conversation'`.
The empty string is the only falsy string. The same function in both files. -/
def sanitizeFileName (name : Str) : Str :=
  let r := trim ((replaceAll reForbidden [45] 0 name).take 80)
  if r = [] then lit "conversation" else r

/-- `normalizeText` of convert.js:
`s.replace(/\r\n/g, '\n').replace(/\n{3,}/g, '\n\n').trim()`. -/
def normalizeText (s : Str) : Str :=
  trim (replaceAll reLF3 [LF, LF] 0 (replaceAll reCRLF [LF] 0 s))

/-- `String(n)` for a non-negative integer: its decimal digits. -/
def decimal (n : Nat) : Str := (Nat.toDigits 10 n).map Char.toNat

/-- `pad` of both files: `String(n).padStart(2, '0')`. -/
def pad (n : Nat) : Str :=
  let d := decimal n
  List.replicate (2 - d.length) 48 ++ d

/-- The fields of a `Date` read by the export: `getFullYear()`, `getMonth()`
(0-based), `getDate()`, `getHours()`, `getMinutes()`. -/
structure LocalTime where
  year : Nat
  month : Nat
  date : Nat
  hours : Nat
  minutes : Nat

/-- `toISODateTimeLocal` of the userscript; `buildMarkdown` of convert.js
computes the same template inline as `iso`. -/
def toISODateTimeLocal (d : LocalTime) : Str :=
  decimal d.year ++ lit "-" ++ pad (d.month + 1) ++ lit "-" ++ pad d.date ++
    lit " " ++ pad d.hours ++ lit ":" ++ pad d.minutes

/-- `lines.join('\n')`. -/
def joinLines (lines : List Str) : Str := List.intercalate [LF] lines

/-! ## The document tree -/

/-- A node of the parsed document: a text node, a comment, or an element with
its tag name (lower case, as the HTML parser stores it), its attributes and its
children in document order. -/
inductive Dom where
  | text (data : Str)
  | comment (data : Str)
  | elem (tag : Str) (attrs : List (Str × Str)) (children : List Dom)

mutual
/-- The elements of a subtree in document order, its root included. -/
def Dom.elems : Dom → List Dom
  | .text _ => []
  | .comment _ => []
  | .elem t a cs => .elem t a cs :: Dom.elemsOfList cs
/-- The elements of a sequence of sibling subtrees in document order. -/
def Dom.elemsOfList : List Dom → List Dom
  | [] => []
  | c :: cs => c.elems ++ Dom.elemsOfList cs
end

mutual
/-- `textContent` (cheerio `.text()` of one element): the data of the text
nodes below the node, concatenated in document order; comments give nothing. -/
def Dom.textContent : Dom → Str
  | .text d => d
  | .comment _ => []
  | .elem _ _ cs => Dom.textOfList cs
/-- The text content of a sequence of siblings. -/
def Dom.textOfList : List Dom → Str
  | [] => []
  | c :: cs => c.textContent ++ Dom.textOfList cs
end

/-- The element descendants of a node in document order, the node excluded:
the candidates of `find` and of `el.querySelector`. -/
def Dom.descendants : Dom → List Dom
  | .elem _ _ cs => Dom.elemsOfList cs
  | _ => []

/-- The tag name of an element. -/
def Dom.tagName : Dom → Option Str
  | .elem t _ _ => some t
  | _ => none

/-- Attribute lookup (`attr(name)`, `getAttribute(name)`): the value, or
`none` for `undefined` / `null` when the element has no such attribute. -/
def Dom.attr (el : Dom) (name : Str) : Option Str :=
  match el with
  | .elem _ attrs _ => attrs.lookup name
  | _ => none

/-- A document: its top-level nodes. -/
abbrev Document := List Dom

/-- `$(selector)` / `document.querySelectorAll(selector)`: the elements of the
document that match, in document order. -/
def querySelectorAll (sel : Dom → Bool) (doc : Document) : List Dom :=
  (Dom.elemsOfList doc).filter sel

/-- The selector `div[data-message-author-role]`. -/
def selPrimary (el : Dom) : Bool :=
  el.tagName == some (lit "div") && (el.attr (lit "data-message-author-role")).isSome

/-- The selector `[data-testid="conversation-turn"]`. -/
def selTurn (el : Dom) : Bool :=
  el.attr (lit "data-testid") == some (lit "conversation-turn")

/-- The selector `article`. -/
def selArticle (el : Dom) : Bool := el.tagName == some (lit "article")

/-- The selector `section`. -/
def selSection (el : Dom) : Bool := el.tagName == some (lit "section")

/-- The selector list `[data-testid="conversation-turn"], article, section`:
an element matches a selector list when it matches one of its selectors. -/
def selFallback (el : Dom) : Bool := selTurn el || selArticle el || selSection el

/-- The selector `.markdown`: the class attribute has the token `markdown`,
tokens being separated by the white space `ws` (the `\s` of css-select for
cheerio, ASCII white space for the DOM). -/
def selMarkdown (ws : Nat → Bool) (el : Dom) : Bool :=
  match el.attr (lit "class") with
  | some cls => decide (lit "markdown" ∈ cls.splitOnP ws)
  | none => false

/-- ASCII white space, the separator of class tokens in the DOM. -/
def isAsciiWhiteSpace (c : Nat) : Bool :=
  c == 9 || c == 10 || c == 12 || c == 13 || c == 32

/-! ## Messages -/

/-- The speaker role of a message: the strings `'User'`, `'Assistant'`,
`'System'` of the source. -/
inductive Role where
  | User
  | Assistant
  | System
  deriving DecidableEq, Repr

/-- The string of a role, as it is written after `## `. -/
def Role.str : Role → Str
  | .User => lit "User"
  | .Assistant => lit "Assistant"
  | .System => lit "System"

/-- A message `{ role, content }`. -/
structure Message where
  role : Role
  content : Str
  deriving DecidableEq, Repr

/-- `regex.test(s)` for a pattern without anchors: the pattern matches at some
position of `s`. -/
def reTest (re : Str → Nat) (s : Str) : Bool := s.tails.any (fun t => re t != 0)

/-- Canonicalize of a case-insensitive pattern without the `u` flag, on the
ASCII range: a lower-case letter becomes its upper-case letter. A code unit
from 128 up never canonicalizes below 128, so it is left as it is here: it
cannot equal the canonical form of an ASCII pattern character either way. -/
def canonicalize (c : Nat) : Nat := if 97 ≤ c ∧ c ≤ 122 then c - 32 else c

/-- A literal pattern with the `i` flag. -/
def reLitCI (p : Str) (s : Str) : Nat :=
  if (p.map canonicalize).isPrefixOf (s.map canonicalize) then p.length else 0

/-- The alternation of two patterns: the first alternative that matches. -/
def reAlt (r1 r2 : Str → Nat) (s : Str) : Nat := if r1 s != 0 then r1 s else r2 s

/-- The pattern `/assistant|bot/i`. -/
def reAssistantLike : Str → Nat := reAlt (reLitCI (lit "assistant")) (reLitCI (lit "bot"))

/-- The pattern `/user|me|author-user/i`. -/
def reUserLike : Str → Nat :=
  reAlt (reLitCI (lit "user")) (reAlt (reLitCI (lit "me")) (reLitCI (lit "author-user")))

/-! ## convert.js -/

namespace Convert

/-- `textOf`: `normalizeText($el.text())`. -/
def textOf (el : Dom) : Str := normalizeText el.textContent

/-- `inferRole` of convert.js. `attr(...) || ''` is the empty string when the
attribute is missing. -/
def inferRole (msg : Dom) : Role :=
  let roleAttr := (msg.attr (lit "data-message-author-role")).getD []
  if includes roleAttr (lit "user") then Role.User
  else if includes roleAttr (lit "assistant") then Role.Assistant
  else if includes roleAttr (lit "system") then Role.System
  else
    let cls := (msg.attr (lit "class")).getD []
    if reTest reAssistantLike cls then Role.Assistant
    else if reTest reUserLike cls then Role.User
    else Role.Assistant

/-- The node selection of `extractMessages` (lines 90-94): the primary query,
and when it is empty the query of the fallback selector list. -/
def selectNodes (doc : Document) : List Dom :=
  let nodes := querySelectorAll selPrimary doc
  if nodes.length = 0 then querySelectorAll selFallback doc else nodes

/-- The content of one node (lines 102-103): the text of the first `.markdown`
descendant when there is one, of the node otherwise. -/
def contentOf (el : Dom) : Str :=
  match (el.descendants.filter (selMarkdown isWhiteSpace)).head? with
  | some md => textOf md
  | none => textOf el

/-- One turn of the `nodes.each` loop (lines 97-108): push a message when the
content is a non-empty string. -/
def extractStep (messages : List Message) (el : Dom) : List Message :=
  let role := inferRole el
  let content := contentOf el
  if content ≠ [] then messages ++ [⟨role, content⟩] else messages

/-- The loop of `extractMessages` over the selected nodes (lines 96-110). -/
def extractFrom (nodes : List Dom) : List Message := nodes.foldl extractStep []

/-- `extractMessages`. -/
def extractMessages (doc : Document) : List Message := extractFrom (selectNodes doc)

/-- The lines one message adds to the output (lines 64-69). -/
def messageLines (m : Message) : List Str :=
  [lit "## " ++ m.role.str, [], escapeTripleBackticks m.content, [], lit "---", []]

/-- `buildMarkdown` of convert.js. `basename` stands for `path.basename` and
`now` for the fields of `new Date()`. -/
def buildMarkdown (basename : Str → Str) (now : LocalTime)
    (title sourcePath : Str) (messages : List Message) : Str :=
  let iso := toISODateTimeLocal now
  let lines : List Str :=
    [lit "# " ++ title, [], lit "- **Source**: " ++ basename sourcePath,
     lit "- **Exported at**: " ++ iso, [], lit "---", []]
  joinLines (messages.foldl (fun ls m => ls ++ messageLines m) lines)

end Convert

/-! ## tampermonkey-export-md.user.js

`innerText` is computed by the browser from the rendered layout; it is a
parameter of the functions that read it. -/

namespace Userscript

/-- `inferRole` of the userscript. `if (roleAttr)` holds for a non-empty
string; `el.textContent || ''` is the text content. -/
def inferRole (el : Dom) : Role :=
  let fallback : Role :=
    if startsWith el.textContent (lit "You") then Role.User else Role.Assistant
  match el.attr (lit "data-message-author-role") with
  | some roleAttr =>
    if roleAttr ≠ [] then
      if includes roleAttr (lit "user") then Role.User
      else if includes roleAttr (lit "assistant") then Role.Assistant
      else if includes roleAttr (lit "system") then Role.System
      else fallback
    else fallback
  | none => fallback

/-- `extractMessageText`: the `innerText` of the first `.markdown` descendant,
or of the element, trimmed and with its triple backticks escaped. -/
def extractMessageText (innerText : Dom → Str) (el : Dom) : Str :=
  let target :=
    match (el.descendants.filter (selMarkdown isAsciiWhiteSpace)).head? with
    | some md => md
    | none => el
  escapeTripleBackticks (trim (innerText target))

/-- The node selection of `collectMessages` (lines 81-85). -/
def selectNodes (doc : Document) : List Dom :=
  let nodes := querySelectorAll selPrimary doc
  if nodes.length ≠ 0 then nodes else querySelectorAll selFallback doc

/-- One turn of the `for` loop of `collectMessages` (lines 88-93). -/
def collectStep (innerText : Dom → Str) (messages : List Message) (el : Dom) :
    List Message :=
  let content := extractMessageText innerText el
  if content = [] then messages
  else messages ++ [⟨inferRole el, content⟩]

/-- The loop of `collectMessages` over the selected nodes (lines 87-94). -/
def collectFrom (innerText : Dom → Str) (list : List Dom) : List Message :=
  list.foldl (collectStep innerText) []

/-- `collectMessages`. -/
def collectMessages (innerText : Dom → Str) (doc : Document) : List Message :=
  collectFrom innerText (selectNodes doc)

/-- The lines one message adds to the output (lines 109-114). -/
def messageLines (m : Message) : List Str :=
  [lit "## " ++ m.role.str, [], m.content, [], lit "---", []]

/-- `buildMarkdown` of the userscript. -/
def buildMarkdown (title url exportedAt : Str) (messages : List Message) : Str :=
  let lines : List Str :=
    [lit "# " ++ title, [], lit "- **URL**: " ++ url,
     lit "- **Exported at**: " ++ exportedAt, [], lit "---", []]
  joinLines (messages.foldl (fun ls m => ls ++ messageLines m) lines)

end Userscript

/-! ## Direct recursive forms of the three replacements

Used in the proofs only; each is proved equal to the `replaceAll` it
describes (`escapeTripleBackticks_eq`, `replaceCRLF_eq`, `collapseLF_eq`). -/

/-- Recursive form of `escapeTripleBackticks`. -/
def escRec : Str → Str
  | a :: b :: c :: rest =>
    if a = BT ∧ b = BT ∧ c = BT then BT :: BT :: 32 :: BT :: escRec rest
    else a :: escRec (b :: c :: rest)
  | s => s

/-- Recursive form of `replace(/\r\n/g, '\n')`. -/
def crlfRec : Str → Str
  | a :: b :: rest =>
    if a = CR ∧ b = LF then LF :: crlfRec rest else a :: crlfRec (b :: rest)
  | s => s

/-- Recursive form of `replace(/\n{3,}/g, '\n\n')`: a line feed followed by
two more is dropped, so that a run of three or more shrinks to two. -/
def collapseRec : Str → Str
  | a :: b :: c :: rest =>
    if a = LF ∧ b = LF ∧ c = LF then collapseRec (b :: c :: rest)
    else a :: collapseRec (b :: c :: rest)
  | s => s

/-- The text normalizer of the spec, its four steps in order: the three of
`normalizeText`, then `escapeTripleBackticks`. -/
def normalize (x : Str) : Str := escapeTripleBackticks (normalizeText x)

/-- The header block of the output template. -/
def headerBlock (title source timestamp : Str) : Str :=
  lit "# " ++ title ++ lit "\n\n- **Source**: " ++ source ++
    lit "\n- **Exported at**: " ++ timestamp ++ lit "\n\n---\n"

/-- The block of one message in the output template. -/
def messageBlock (role : Role) (content : Str) : Str :=
  lit "\n## " ++ role.str ++ lit "\n\n" ++ content ++ lit "\n\n---\n"

/-- Lines each followed by a line feed. -/
def unlines (l : List Str) : Str := (l.map (fun x => x ++ [LF])).flatten

/-- A trimmed text: neither its first nor its last code unit is white space. -/
def Trimmed (s : Str) : Prop :=
  (∀ c, s.head? = some c → isWhiteSpace c = false) ∧
  (∀ c, s.getLast? = some c → isWhiteSpace c = false)

/-- A conversation-turn container: `<div data-testid="conversation-turn">A</div>`. -/
def turnNode : Dom :=
  Dom.elem (lit "div") [(lit "data-testid", lit "conversation-turn")] [Dom.text (lit "A")]

/-- A sectioning element: `<article>B</article>`. -/
def articleNode : Dom := Dom.elem (lit "article") [] [Dom.text (lit "B")]

/-- A turn with an author-role marker:
`<div data-message-author-role="assistant-turn" class="user">You said</div>`. -/
def markedNode : Dom :=
  Dom.elem (lit "div")
    [(lit "data-message-author-role", lit "assistant-turn"), (lit "class", lit "user")]
    [Dom.text (lit "You said")]

/-- A turn without author-role marker, found by the fallback query:
`<article class="author-user-bubble">hi</article>`. -/
def bubbleNode : Dom :=
  Dom.elem (lit "article") [(lit "class", lit "author-user-bubble")] [Dom.text (lit "hi")]

/-! ## Title resolution -/

/-- Line terminators, the code units that `.` does not match: LF, CR, U+2028,
U+2029. -/
def isLineTerminator (c : Nat) : Bool := c == 10 || c == 13 || c == 8232 || c == 8233

/-- The pattern `/ - ChatGPT.*$/i` at the current position: the literal,
letters in either case, then `.*` up to `$`, the end of the input (there is no
`m` flag). `.*` cannot pass a line terminator, so the pattern matches where the
literal stands and no line terminator follows it, and the match runs to the
end. -/
def reChatGPTSuffix (s : Str) : Nat :=
  if reLitCI (lit " - ChatGPT") s != 0 &&
      (s.drop (lit " - ChatGPT").length).all (fun c => !isLineTerminator c)
  then s.length else 0

/-- `s.replace(re, repl)` for a regular expression without the `g` flag: the
first match from the left is replaced, the rest is copied. -/
def replaceFirst (re : Str → Nat) (repl : Str) : Str → Str
  | [] => []
  | c :: rest =>
    match re (c :: rest) with
    | 0 => c :: replaceFirst re repl rest
    | k + 1 => repl ++ rest.drop k

/-- The literal `'ChatGPT Conversation'`. -/
def placeholderTitle : Str := lit "ChatGPT Conversation"

/-- The expression `x || 'ChatGPT Conversation'`: the empty string is falsy. -/
def orPlaceholder (x : Str) : Str := if x = [] then placeholderTitle else x

/-- The expression `raw.replace(/ - ChatGPT.*$/i, '').trim() ||
'ChatGPT Conversation'`, which both files apply (convert.js line 126 to
`rawTitle`, the userscript lines 52-53 to `document.title`). -/
def stripTitle (raw : Str) : Str :=
  orPlaceholder (trim (replaceFirst reChatGPTSuffix [] raw))

/-- The selector list `h1, header h1, [data-testid="conversation-title"]` of
the userscript (`header h1` selects nothing that `h1` does not). -/
def selVisibleTitle (el : Dom) : Bool :=
  el.tagName == some (lit "h1") ||
    el.attr (lit "data-testid") == some (lit "conversation-title")

/-- The selector list `h1, header h1, [data-testid="conversation-title"],
title` of convert.js. -/
def selAnyTitle (el : Dom) : Bool :=
  selVisibleTitle el || el.tagName == some (lit "title")

/-- The text of `$(selector).first().text()`: the text of the first match, the
empty string when nothing matches. -/
def firstText (sel : Dom → Bool) (doc : Document) : Str :=
  match (querySelectorAll sel doc).head? with
  | some el => el.textContent
  | none => []

/-- `rawTitle` of convert.js `main` (lines 124-125). -/
def Convert.rawTitle (doc : Document) : Str := orPlaceholder (trim (firstText selAnyTitle doc))

/-- `title` of convert.js `main` (line 126). -/
def Convert.title (doc : Document) : Str := stripTitle (Convert.rawTitle doc)

/-- `getTitle` of the userscript; `documentTitle` is `document.title`. -/
def Userscript.getTitle (documentTitle : Str) (doc : Document) : Str :=
  match (querySelectorAll selVisibleTitle doc).head? with
  | some h1 =>
    if trim h1.textContent ≠ [] then trim h1.textContent else stripTitle documentTitle
  | none => stripTitle documentTitle

/-! ## Reference forms of the claims -/

/-- The sanitizer in the words of the spec: replace every character of the set
by a hyphen, truncate to the first 80, trim, and return the fallback when the
result is empty. -/
def sanitizeSpec (name : Str) : Str :=
  let replaced := name.map (fun c => if c ∈ forbiddenChars then 45 else c)
  let trimmed := trim (replaced.take 80)
  if trimmed.isEmpty then lit "conversation" else trimmed

/-- Case-insensitive `includes`: `p` occurs in `s` when letters are compared
without regard to case. -/
def includesCI (s p : Str) : Bool := includes (s.map canonicalize) (p.map canonicalize)

/-- Every carriage return of the text is followed by a line feed. -/
def crOnlyBeforeLF : Str → Bool
  | [] => true
  | [a] => a != CR
  | a :: b :: rest => (a != CR || b == LF) && crOnlyBeforeLF (b :: rest)

/-- The lines of a text: its pieces between line feeds. -/
def linesOf (s : Str) : List Str := s.splitOn LF

/-- The role that the author-role marker alone decides, when it contains one
of the three words. -/
def markerRole (marker : Str) : Option Role :=
  if includes marker (lit "user") then some Role.User
  else if includes marker (lit "assistant") then some Role.Assistant
  else if includes marker (lit "system") then some Role.System
  else none

/-- The `target` of `extractMessageText` (lines 71-72): the first `.markdown`
descendant, or the element itself. -/
def Userscript.targetOf (el : Dom) : Dom :=
  match (el.descendants.filter (selMarkdown isAsciiWhiteSpace)).head? with
  | some md => md
  | none => el

/-- The element whose text convert.js reads (lines 102-103):
`$md.length ? $md : $el`. -/
def Convert.targetOf (el : Dom) : Dom :=
  match (el.descendants.filter (selMarkdown isWhiteSpace)).head? with
  | some md => md
  | none => el

/-- A turn whose text has two paragraphs and a code fence:
`<div> a LF LF three backticks b LF </div>`. -/
def fencedNode : Dom := Dom.elem (lit "div") [] [Dom.text (lit " a\n\n```b\n ")]

/-- A document with a visible title:
`<html><head><title>My Chat - ChatGPT</title></head><body><h1>My Chat - ChatGPT</h1></body></html>`. -/
def titledDoc : Document :=
  [Dom.elem (lit "html") []
    [Dom.elem (lit "head") [] [Dom.elem (lit "title") [] [Dom.text (lit "My Chat - ChatGPT")]],
     Dom.elem (lit "body") [] [Dom.elem (lit "h1") [] [Dom.text (lit "My Chat - ChatGPT")]]]]

/-! ## General lemmas -/

/-- A match in progress skips its code units: resuming with `k` code units
left is resuming after them. -/
theorem replaceAll_skip (re : Str → Nat) (r : Str) :
    ∀ (k : Nat) (s : Str), replaceAll re r k s = replaceAll re r 0 (s.drop k)
  | 0, s => by simp
  | k + 1, [] => by simp [replaceAll]
  | k + 1, _ :: rest => by simp [replaceAll, replaceAll_skip re r k rest]

/-- Unfolding of the scan at a position where the pattern does not match. -/
theorem replaceAll_cons_of_no_match (re : Str → Nat) (r : Str) (c : Nat) (rest : Str)
    (h : re (c :: rest) = 0) :
    replaceAll re r 0 (c :: rest) = c :: replaceAll re r 0 rest := by
  simp [replaceAll, h]

/-- Unfolding of the scan at a position where the pattern matches. -/
theorem replaceAll_cons_of_match (re : Str → Nat) (r : Str) (c : Nat) (rest : Str)
    (k : Nat) (h : re (c :: rest) = k + 1) :
    replaceAll re r 0 (c :: rest) = r ++ replaceAll re r 0 (rest.drop k) := by
  simp [replaceAll, h, replaceAll_skip re r k rest]

theorem trimStart_suffix (s : Str) : trimStart s <:+ s :=
  List.dropWhile_suffix _

theorem trimEnd_isPrefix (s : Str) : trimEnd s <+: s := by
  have h := (List.dropWhile_suffix isWhiteSpace (l := s.reverse))
  simpa [trimEnd] using List.reverse_prefix.mpr h

theorem trim_isInfix (s : Str) : trim s <:+: s :=
  (trimEnd_isPrefix _).isInfix.trans (trimStart_suffix s).isInfix

theorem trim_length_le (s : Str) : (trim s).length ≤ s.length :=
  (trim_isInfix s).length_le

theorem mem_of_mem_trim {c : Nat} {s : Str} (h : c ∈ trim s) : c ∈ s :=
  (trim_isInfix s).subset h

/-! ## sanitizeFileName -/

/-- After the replacement no code unit of the class is left, whatever the
state of the scan. -/
theorem replaceAll_forbidden_free :
    ∀ (s : Str) (k : Nat), ∀ c ∈ replaceAll reForbidden [45] k s, c ∉ forbiddenChars := by
  intro s
  induction s with
  | nil => intro k c h; simp [replaceAll] at h
  | cons a rest ih =>
    intro k c h
    cases k with
    | succ k => exact ih k c (by simpa [replaceAll] using h)
    | zero =>
      by_cases ha : a ∈ forbiddenChars
      · have hm : reForbidden (a :: rest) = 0 + 1 := by simp [reForbidden, ha]
        rw [replaceAll_cons_of_match _ _ _ _ 0 hm] at h
        simp only [List.drop_zero, List.singleton_append, List.mem_cons] at h
        rcases h with h | h
        · subst h; decide
        · exact ih 0 c h
      · have hm : reForbidden (a :: rest) = 0 := by simp [reForbidden, ha]
        rw [replaceAll_cons_of_no_match _ _ _ _ hm] at h
        simp only [List.mem_cons] at h
        rcases h with h | h
        · subst h; exact ha
        · exact ih 0 c h

/-- C1. For every string `name`, `sanitizeFileName name` has at most 80 code
units, contains none of the characters `/ \ ? % * : | " < >`, and is not the
empty string. -/
theorem sanitizeFileName_safe (name : Str) :
    (sanitizeFileName name).length ≤ 80 ∧
    List.Disjoint (sanitizeFileName name) forbiddenChars ∧
    sanitizeFileName name ≠ [] := by
  unfold sanitizeFileName
  simp only
  split
  · refine ⟨by decide, ?_, by decide⟩
    have h : ∀ c ∈ lit "conversation", c ∉ forbiddenChars := by decide
    exact fun c hc => h c hc
  · rename_i hne
    refine ⟨?_, ?_, hne⟩
    · exact (trim_length_le _).trans (by simp)
    · intro c hc
      exact replaceAll_forbidden_free name 0 c (List.mem_of_mem_take (mem_of_mem_trim hc))

/-! ## The recursive forms agree with the replacements -/

theorem reTripleBacktick_eq (s : Str) :
    reTripleBacktick s = if [BT, BT, BT] <+: s then 3 else 0 := by
  simp [reTripleBacktick, reLit]

theorem escapeTripleBackticks_eq (s : Str) : escapeTripleBackticks s = escRec s := by
  unfold escapeTripleBackticks
  induction s using escRec.induct with
  | case1 a b c rest h ih =>
    obtain ⟨rfl, rfl, rfl⟩ := h
    rw [replaceAll_cons_of_match _ _ _ _ 2 (by simp [reTripleBacktick_eq])]
    simp [escRec, ih]
  | case2 a b c rest h ih =>
    rw [replaceAll_cons_of_no_match _ _ _ _ (by
      rw [reTripleBacktick_eq, if_neg]
      simp only [List.cons_prefix_cons]
      rintro ⟨h1, h2, h3, -⟩
      exact h ⟨h1.symm, h2.symm, h3.symm⟩)]
    simp [escRec, h, ih]
  | case3 s h =>
    match s, h with
    | [], _ => simp [replaceAll, escRec]
    | [a], _ => simp [replaceAll, escRec, reTripleBacktick_eq]
    | [a, b], _ => simp [replaceAll, escRec, reTripleBacktick_eq]
    | a :: b :: c :: rest, h => exact absurd rfl (h a b c rest)

theorem reCRLF_eq (s : Str) : reCRLF s = if [CR, LF] <+: s then 2 else 0 := by
  simp [reCRLF, reLit]

theorem replaceCRLF_eq (s : Str) : replaceAll reCRLF [LF] 0 s = crlfRec s := by
  induction s using crlfRec.induct with
  | case1 a b rest h ih =>
    obtain ⟨rfl, rfl⟩ := h
    rw [replaceAll_cons_of_match _ _ _ _ 1 (by simp [reCRLF_eq])]
    simp [crlfRec, ih]
  | case2 a b rest h ih =>
    rw [replaceAll_cons_of_no_match _ _ _ _ (by
      rw [reCRLF_eq, if_neg]
      simp only [List.cons_prefix_cons]
      rintro ⟨h1, h2, -⟩
      exact h ⟨h1.symm, h2.symm⟩)]
    simp [crlfRec, h, ih]
  | case3 s h =>
    match s, h with
    | [], _ => simp [replaceAll, crlfRec]
    | [a], _ => simp [replaceAll, crlfRec, reCRLF_eq]
    | a :: b :: rest, h => exact absurd rfl (h a b rest)

/-- The run of line feeds at the head of a string. -/
theorem reLF3_cons_of_ne (a : Nat) (rest : Str) (h : a ≠ LF) : reLF3 (a :: rest) = 0 := by
  simp [reLF3, List.takeWhile_cons, h]

/-- At two line feeds the scan of `\n{3,}` emits two line feeds and resumes
after the whole run, whether the run has two line feeds or more. -/
theorem collapse_two (rest : Str) :
    replaceAll reLF3 [LF, LF] 0 (LF :: LF :: rest) =
      LF :: LF :: replaceAll reLF3 [LF, LF] 0 (rest.dropWhile (fun c => c == LF)) := by
  cases rest with
  | nil => simp [replaceAll, reLF3]
  | cons c rest =>
    by_cases hc : c = LF
    · subst hc
      have hm : reLF3 (LF :: LF :: LF :: rest) =
          ((rest.takeWhile (fun c => c == LF)).length + 2) + 1 := by
        simp [reLF3, List.takeWhile_cons]
      rw [replaceAll_cons_of_match _ _ _ _ _ hm]
      have hd : List.drop ((rest.takeWhile (fun c => c == LF)).length + 2) (LF :: LF :: rest) =
          rest.dropWhile (fun c => c == LF) := by
        simp only [List.drop_succ_cons]
        calc List.drop (rest.takeWhile (fun c => c == LF)).length rest
            = List.drop (rest.takeWhile (fun c => c == LF)).length
                (rest.takeWhile (fun c => c == LF) ++ rest.dropWhile (fun c => c == LF)) := by
              rw [List.takeWhile_append_dropWhile]
          _ = rest.dropWhile (fun c => c == LF) := List.drop_left _ _
      rw [hd]
      simp [List.dropWhile_cons]
    · have h1 : reLF3 (LF :: LF :: c :: rest) = 0 := by
        simp [reLF3, List.takeWhile_cons, hc]
      have h2 : reLF3 (LF :: c :: rest) = 0 := by
        simp [reLF3, List.takeWhile_cons, hc]
      rw [replaceAll_cons_of_no_match _ _ _ _ h1, replaceAll_cons_of_no_match _ _ _ _ h2]
      simp [List.dropWhile_cons, hc]

theorem collapseLF_eq (s : Str) : replaceAll reLF3 [LF, LF] 0 s = collapseRec s := by
  induction s using collapseRec.induct with
  | case1 a b c rest h ih =>
    obtain ⟨rfl, rfl, rfl⟩ := h
    rw [collapseRec, if_pos ⟨rfl, rfl, rfl⟩, ← ih, collapse_two, collapse_two]
    simp [List.dropWhile_cons]
  | case2 a b c rest h ih =>
    rw [collapseRec, if_neg h, ← ih]
    by_cases ha : a = LF
    · subst ha
      by_cases hb : b = LF
      · subst hb
        have hc : c ≠ LF := fun hc => h ⟨rfl, rfl, hc⟩
        rw [collapse_two, replaceAll_cons_of_no_match _ _ LF (c :: rest)
          (by simp [reLF3, List.takeWhile_cons, hc])]
        simp [List.dropWhile_cons, hc]
      · exact replaceAll_cons_of_no_match _ _ _ _ (by simp [reLF3, List.takeWhile_cons, hb])
    · exact replaceAll_cons_of_no_match _ _ _ _ (reLF3_cons_of_ne _ _ ha)
  | case3 s h =>
    match s, h with
    | [], _ => simp [replaceAll, collapseRec]
    | [a], _ =>
      by_cases ha : a = LF <;> simp [replaceAll, collapseRec, reLF3, List.takeWhile_cons, ha]
    | [a, b], _ =>
      by_cases ha : a = LF <;> by_cases hb : b = LF <;>
        simp [replaceAll, collapseRec, reLF3, List.takeWhile_cons, ha, hb]
    | a :: b :: c :: rest, h => exact absurd rfl (h a b c rest)

/-- The three steps of `normalizeText` in their recursive forms. -/
theorem normalizeText_eq (s : Str) : normalizeText s = trim (collapseRec (crlfRec s)) := by
  simp [normalizeText, replaceCRLF_eq, collapseLF_eq]

/-! ## Collapsing runs of line feeds -/

/-- The collapse keeps the first code unit. -/
theorem collapseRec_head (s : Str) : (collapseRec s).head? = s.head? := by
  induction s using collapseRec.induct with
  | case1 a b c rest h ih =>
    obtain ⟨rfl, rfl, rfl⟩ := h
    rw [collapseRec, if_pos ⟨rfl, rfl, rfl⟩, ih]; rfl
  | case2 a b c rest h ih => rw [collapseRec, if_neg h]; rfl
  | case3 s h =>
    match s, h with
    | [], _ => rfl
    | [a], _ => rfl
    | [a, b], _ => rfl
    | a :: b :: c :: rest, h => exact absurd rfl (h a b c rest)

/-- A prefix without line feed of the collapsed text is a prefix of the text. -/
theorem prefix_of_prefix_collapseRec (s : Str) :
    ∀ p : Str, LF ∉ p → p <+: collapseRec s → p <+: s := by
  induction s using collapseRec.induct with
  | case1 a b c rest h ih =>
    obtain ⟨rfl, rfl, rfl⟩ := h
    intro p hp hpre
    have hh := collapseRec_head (LF :: LF :: LF :: rest)
    cases p with
    | nil => exact List.nil_prefix
    | cons x p =>
      obtain ⟨t, ht⟩ := hpre
      rw [← ht] at hh
      simp at hh
      exact absurd (hh ▸ List.mem_cons_self _ _) hp
  | case2 a b c rest h ih =>
    intro p hp hpre
    rw [collapseRec, if_neg h] at hpre
    rcases List.prefix_cons_iff.mp hpre with rfl | ⟨t, rfl, ht⟩
    · exact List.nil_prefix
    · exact List.cons_prefix_cons.mpr ⟨rfl, ih t (fun hm => hp (List.mem_cons_of_mem _ hm)) ht⟩
  | case3 s h =>
    intro p _ hpre
    match s, h with
    | [], _ => exact hpre
    | [a], _ => exact hpre
    | [a, b], _ => exact hpre
    | a :: b :: c :: rest, h => exact absurd rfl (h a b c rest)

/-- A substring of the collapsed text with no line feed after its first code
unit is a substring of the text: the collapse creates no new adjacency but one
whose second code unit is a line feed. -/
theorem infix_of_infix_collapseRec (s : Str) :
    ∀ p : Str, LF ∉ p.tail → p <:+: collapseRec s → p <:+: s := by
  induction s using collapseRec.induct with
  | case1 a b c rest h ih =>
    obtain ⟨rfl, rfl, rfl⟩ := h
    intro p hp hin
    rw [collapseRec, if_pos ⟨rfl, rfl, rfl⟩] at hin
    exact (ih p hp hin).trans (List.suffix_cons _ _).isInfix
  | case2 a b c rest h ih =>
    intro p hp hin
    rw [collapseRec, if_neg h] at hin
    rcases List.infix_cons_iff.mp hin with hpre | hin
    · rcases List.prefix_cons_iff.mp hpre with rfl | ⟨t, rfl, ht⟩
      · exact List.nil_infix
      · exact (List.cons_prefix_cons.mpr
          ⟨rfl, prefix_of_prefix_collapseRec _ t hp ht⟩).isInfix
    · exact (ih p hp hin).trans (List.suffix_cons _ _).isInfix
  | case3 s h =>
    intro p _ hin
    match s, h with
    | [], _ => exact hin
    | [a], _ => exact hin
    | [a, b], _ => exact hin
    | a :: b :: c :: rest, h => exact absurd rfl (h a b c rest)

/-- Two line feeds at the head of the collapsed text were at the head of the
text. -/
theorem two_LF_of_collapseRec (s : Str) (h : [LF, LF] <+: collapseRec s) : [LF, LF] <+: s := by
  induction s using collapseRec.induct with
  | case1 a b c rest h1 ih =>
    obtain ⟨rfl, rfl, rfl⟩ := h1
    simp
  | case2 a b c rest h1 ih =>
    rw [collapseRec, if_neg h1] at h
    obtain ⟨rfl, h2⟩ := List.cons_prefix_cons.mp h
    have hh := collapseRec_head (b :: c :: rest)
    obtain ⟨t, ht⟩ := h2
    rw [← ht] at hh
    simp at hh
    subst hh
    simp
  | case3 s h1 =>
    match s, h1 with
    | [], _ => exact h
    | [a], _ => exact h
    | [a, b], _ => exact h
    | a :: b :: c :: rest, h1 => exact absurd rfl (h1 a b c rest)

/-- The collapsed text has no three line feeds in a row. -/
theorem collapseRec_no_LF3 (s : Str) : ¬ [LF, LF, LF] <:+: collapseRec s := by
  induction s using collapseRec.induct with
  | case1 a b c rest h ih =>
    obtain ⟨rfl, rfl, rfl⟩ := h
    rw [collapseRec, if_pos ⟨rfl, rfl, rfl⟩]; exact ih
  | case2 a b c rest h ih =>
    rw [collapseRec, if_neg h]
    intro hin
    rcases List.infix_cons_iff.mp hin with hpre | hin
    · obtain ⟨rfl, h2⟩ := List.cons_prefix_cons.mp hpre
      have h3 := two_LF_of_collapseRec _ h2
      simp only [List.cons_prefix_cons] at h3
      exact h ⟨rfl, h3.1.symm, h3.2.1.symm⟩
    · exact ih hin
  | case3 s h =>
    intro hin
    have hl := hin.length_le
    match s, h with
    | [], _ => simp [collapseRec] at hl
    | [a], _ => simp [collapseRec] at hl
    | [a, b], _ => simp [collapseRec] at hl
    | a :: b :: c :: rest, h => exact absurd rfl (h a b c rest)

/-- The collapse leaves a text without three line feeds in a row as it is. -/
theorem collapseRec_eq_self (s : Str) (h : ¬ [LF, LF, LF] <:+: s) : collapseRec s = s := by
  induction s using collapseRec.induct with
  | case1 a b c rest h1 ih =>
    obtain ⟨rfl, rfl, rfl⟩ := h1
    exact absurd (List.prefix_append [LF, LF, LF] rest).isInfix h
  | case2 a b c rest h1 ih =>
    rw [collapseRec, if_neg h1, ih (fun hin => h (hin.trans (List.suffix_cons _ _).isInfix))]
  | case3 s h1 =>
    match s, h1 with
    | [], _ => rfl
    | [a], _ => rfl
    | [a, b], _ => rfl
    | a :: b :: c :: rest, h1 => exact absurd rfl (h1 a b c rest)

/-- The collapse creates no carriage return followed by a line feed. -/
theorem collapseRec_no_CRLF (s : Str) (h : ¬ [CR, LF] <:+: s) :
    ¬ [CR, LF] <:+: collapseRec s := by
  induction s using collapseRec.induct with
  | case1 a b c rest h1 ih =>
    obtain ⟨rfl, rfl, rfl⟩ := h1
    rw [collapseRec, if_pos ⟨rfl, rfl, rfl⟩]
    exact ih (fun hin => h (hin.trans (List.suffix_cons _ _).isInfix))
  | case2 a b c rest h1 ih =>
    rw [collapseRec, if_neg h1]
    intro hin
    rcases List.infix_cons_iff.mp hin with hpre | hin
    · obtain ⟨rfl, h2⟩ := List.cons_prefix_cons.mp hpre
      have hh := collapseRec_head (b :: c :: rest)
      obtain ⟨t, ht⟩ := h2
      rw [← ht] at hh
      simp at hh
      subst hh
      exact h (List.prefix_append [CR, LF] (c :: rest)).isInfix
    · exact ih (fun hin => h (hin.trans (List.suffix_cons _ _).isInfix)) hin
  | case3 s h1 =>
    match s, h1 with
    | [], _ => exact h
    | [a], _ => exact h
    | [a, b], _ => exact h
    | a :: b :: c :: rest, h1 => exact absurd rfl (h1 a b c rest)

/-! ## Replacing CR LF by LF -/

/-- A line feed at the head of the result comes from a line feed or from a
carriage return and a line feed at the head of the text. -/
theorem crlfRec_head_LF (s : Str) (h : [LF] <+: crlfRec s) : [LF] <+: s ∨ [CR, LF] <+: s := by
  match s with
  | [] => exact Or.inl h
  | [a] => exact Or.inl h
  | a :: b :: rest =>
    by_cases h1 : a = CR ∧ b = LF
    · obtain ⟨rfl, rfl⟩ := h1
      exact Or.inr (List.prefix_append [CR, LF] rest)
    · rw [crlfRec, if_neg h1] at h
      obtain ⟨rfl, -⟩ := List.cons_prefix_cons.mp h
      exact Or.inl (List.prefix_append [LF] (b :: rest))

/-- A prefix without line feed of the result is a prefix of the text. -/
theorem prefix_of_prefix_crlfRec (s : Str) :
    ∀ p : Str, LF ∉ p → p <+: crlfRec s → p <+: s := by
  induction s using crlfRec.induct with
  | case1 a b rest h ih =>
    obtain ⟨rfl, rfl⟩ := h
    intro p hp hpre
    rw [crlfRec, if_pos ⟨rfl, rfl⟩] at hpre
    rcases List.prefix_cons_iff.mp hpre with rfl | ⟨t, rfl, -⟩
    · exact List.nil_prefix
    · exact absurd (List.mem_cons_self _ _) hp
  | case2 a b rest h ih =>
    intro p hp hpre
    rw [crlfRec, if_neg h] at hpre
    rcases List.prefix_cons_iff.mp hpre with rfl | ⟨t, rfl, ht⟩
    · exact List.nil_prefix
    · exact List.cons_prefix_cons.mpr ⟨rfl, ih t (fun hm => hp (List.mem_cons_of_mem _ hm)) ht⟩
  | case3 s h =>
    intro p _ hpre
    match s, h with
    | [], _ => exact hpre
    | [a], _ => exact hpre
    | a :: b :: rest, h => exact absurd rfl (h a b rest)

/-- A substring of the result with no line feed after its first code unit is a
substring of the text. -/
theorem infix_of_infix_crlfRec (s : Str) :
    ∀ p : Str, LF ∉ p.tail → p <:+: crlfRec s → p <:+: s := by
  induction s using crlfRec.induct with
  | case1 a b rest h ih =>
    obtain ⟨rfl, rfl⟩ := h
    intro p hp hin
    rw [crlfRec, if_pos ⟨rfl, rfl⟩] at hin
    rcases List.infix_cons_iff.mp hin with hpre | hin
    · rcases List.prefix_cons_iff.mp hpre with rfl | ⟨t, rfl, ht⟩
      · exact List.nil_infix
      · have h2 : LF :: t <+: LF :: rest :=
          List.cons_prefix_cons.mpr ⟨rfl, prefix_of_prefix_crlfRec _ t hp ht⟩
        exact h2.isInfix.trans (List.suffix_cons _ _).isInfix
    · exact (ih p hp hin).trans ((List.suffix_cons _ _).trans (List.suffix_cons _ _)).isInfix
  | case2 a b rest h ih =>
    intro p hp hin
    rw [crlfRec, if_neg h] at hin
    rcases List.infix_cons_iff.mp hin with hpre | hin
    · rcases List.prefix_cons_iff.mp hpre with rfl | ⟨t, rfl, ht⟩
      · exact List.nil_infix
      · exact (List.cons_prefix_cons.mpr ⟨rfl, prefix_of_prefix_crlfRec _ t hp ht⟩).isInfix
    · exact (ih p hp hin).trans (List.suffix_cons _ _).isInfix
  | case3 s h =>
    intro p _ hin
    match s, h with
    | [], _ => exact hin
    | [a], _ => exact hin
    | a :: b :: rest, h => exact absurd rfl (h a b rest)

/-- The result has a carriage return followed by a line feed only where the
text has two carriage returns followed by a line feed. -/
theorem crlfRec_no_CRLF (s : Str) (h : ¬ [CR, CR, LF] <:+: s) : ¬ [CR, LF] <:+: crlfRec s := by
  induction s using crlfRec.induct with
  | case1 a b rest h1 ih =>
    obtain ⟨rfl, rfl⟩ := h1
    rw [crlfRec, if_pos ⟨rfl, rfl⟩]
    intro hin
    rcases List.infix_cons_iff.mp hin with hpre | hin
    · simp at hpre
    · exact ih (fun hin => h (hin.trans
        ((List.suffix_cons _ _).trans (List.suffix_cons _ _)).isInfix)) hin
  | case2 a b rest h1 ih =>
    rw [crlfRec, if_neg h1]
    intro hin
    rcases List.infix_cons_iff.mp hin with hpre | hin
    · obtain ⟨rfl, h2⟩ := List.cons_prefix_cons.mp hpre
      rcases crlfRec_head_LF _ h2 with h3 | h3
      · obtain ⟨rfl, -⟩ := List.cons_prefix_cons.mp h3
        exact h1 ⟨rfl, rfl⟩
      · exact h (List.cons_prefix_cons.mpr ⟨rfl, h3⟩).isInfix
    · exact ih (fun hin => h (hin.trans (List.suffix_cons _ _).isInfix)) hin
  | case3 s h1 =>
    match s, h1 with
    | [], _ => simp [crlfRec]
    | [a], _ => intro hin; simpa [crlfRec] using hin.length_le
    | a :: b :: rest, h1 => exact absurd rfl (h1 a b rest)

/-- The replacement leaves a text without CR LF as it is. -/
theorem crlfRec_eq_self (s : Str) (h : ¬ [CR, LF] <:+: s) : crlfRec s = s := by
  induction s using crlfRec.induct with
  | case1 a b rest h1 ih =>
    obtain ⟨rfl, rfl⟩ := h1
    exact absurd (List.prefix_append [CR, LF] rest).isInfix h
  | case2 a b rest h1 ih =>
    rw [crlfRec, if_neg h1, ih (fun hin => h (hin.trans (List.suffix_cons _ _).isInfix))]
  | case3 s h1 =>
    match s, h1 with
    | [], _ => rfl
    | [a], _ => rfl
    | a :: b :: rest, h1 => exact absurd rfl (h1 a b rest)

/-! ## Escaping triple backticks -/

/-- The escape keeps the first code unit. -/
theorem escRec_head (s : Str) : (escRec s).head? = s.head? := by
  match s with
  | [] => rfl
  | [a] => rfl
  | [a, b] => rfl
  | a :: b :: c :: rest =>
    by_cases h : a = BT ∧ b = BT ∧ c = BT
    · obtain ⟨rfl, rfl, rfl⟩ := h
      rw [escRec, if_pos ⟨rfl, rfl, rfl⟩]; rfl
    · rw [escRec, if_neg h]; rfl

/-- The escape keeps the last code unit. -/
theorem escRec_getLast (s : Str) : (escRec s).getLast? = s.getLast? := by
  induction s using escRec.induct with
  | case1 a b c rest h ih =>
    obtain ⟨rfl, rfl, rfl⟩ := h
    rw [escRec, if_pos ⟨rfl, rfl, rfl⟩]
    cases rest with
    | nil => simp [escRec]
    | cons x rest =>
      have hne : escRec (x :: rest) ≠ [] := by
        intro h0
        have := escRec_head (x :: rest)
        rw [h0] at this
        simp at this
      obtain ⟨y, ys, hy⟩ := List.exists_cons_of_ne_nil hne
      rw [hy] at ih ⊢
      simpa using ih
  | case2 a b c rest h ih =>
    rw [escRec, if_neg h]
    have hne : escRec (b :: c :: rest) ≠ [] := by
      intro h0
      have := escRec_head (b :: c :: rest)
      rw [h0] at this
      simp at this
    obtain ⟨y, ys, hy⟩ := List.exists_cons_of_ne_nil hne
    rw [hy] at ih ⊢
    simpa using ih
  | case3 s h =>
    match s, h with
    | [], _ => rfl
    | [a], _ => rfl
    | [a, b], _ => rfl
    | a :: b :: c :: rest, h => exact absurd rfl (h a b c rest)

/-- Two backticks at the head of the escaped text were at the head of the
text. -/
theorem two_BT_of_escRec (s : Str) (h : [BT, BT] <+: escRec s) : [BT, BT] <+: s := by
  match s with
  | [] => exact h
  | [a] => exact h
  | [a, b] => exact h
  | a :: b :: c :: rest =>
    by_cases h1 : a = BT ∧ b = BT ∧ c = BT
    · obtain ⟨rfl, rfl, rfl⟩ := h1
      simp
    · rw [escRec, if_neg h1] at h
      obtain ⟨rfl, h2⟩ := List.cons_prefix_cons.mp h
      have hh := escRec_head (b :: c :: rest)
      obtain ⟨t, ht⟩ := h2
      rw [← ht] at hh
      simp at hh
      subst hh
      simp

/-- A text without five backticks in a row is escaped to a text without three
backticks in a row. -/
theorem escRec_no_BT3 (s : Str) (h : ¬ [BT, BT, BT, BT, BT] <:+: s) :
    ¬ [BT, BT, BT] <:+: escRec s := by
  induction s using escRec.induct with
  | case1 a b c rest h1 ih =>
    obtain ⟨rfl, rfl, rfl⟩ := h1
    rw [escRec, if_pos ⟨rfl, rfl, rfl⟩]
    intro hin
    rcases List.infix_cons_iff.mp hin with hpre | hin
    · simp at hpre
    rcases List.infix_cons_iff.mp hin with hpre | hin
    · simp at hpre
    rcases List.infix_cons_iff.mp hin with hpre | hin
    · simp at hpre
    rcases List.infix_cons_iff.mp hin with hpre | hin
    · obtain ⟨-, h2⟩ := List.cons_prefix_cons.mp hpre
      have h3 := two_BT_of_escRec _ h2
      obtain ⟨t, ht⟩ := h3
      exact h ⟨[], t, by simp [← ht]⟩
    · exact ih (fun hin => h (hin.trans ((List.suffix_cons _ _).trans
        ((List.suffix_cons _ _).trans (List.suffix_cons _ _))).isInfix)) hin
  | case2 a b c rest h1 ih =>
    rw [escRec, if_neg h1]
    intro hin
    rcases List.infix_cons_iff.mp hin with hpre | hin
    · obtain ⟨rfl, h2⟩ := List.cons_prefix_cons.mp hpre
      have h3 := two_BT_of_escRec _ h2
      simp only [List.cons_prefix_cons] at h3
      exact h1 ⟨rfl, h3.1.symm, h3.2.1.symm⟩
    · exact ih (fun hin => h (hin.trans (List.suffix_cons _ _).isInfix)) hin
  | case3 s h1 =>
    intro hin
    have hl := hin.length_le
    match s, h1 with
    | [], _ => simp [escRec] at hl
    | [a], _ => simp [escRec] at hl
    | [a, b], _ => simp [escRec] at hl
    | a :: b :: c :: rest, h1 => exact absurd rfl (h1 a b c rest)

/-- A prefix of the escaped text without backtick is a prefix of the text. -/
theorem prefix_of_prefix_escRec (s : Str) :
    ∀ p : Str, BT ∉ p → p <+: escRec s → p <+: s := by
  induction s using escRec.induct with
  | case1 a b c rest h ih =>
    obtain ⟨rfl, rfl, rfl⟩ := h
    intro p hp hpre
    rw [escRec, if_pos ⟨rfl, rfl, rfl⟩] at hpre
    rcases List.prefix_cons_iff.mp hpre with rfl | ⟨t, rfl, -⟩
    · exact List.nil_prefix
    · exact absurd (List.mem_cons_self _ _) hp
  | case2 a b c rest h ih =>
    intro p hp hpre
    rw [escRec, if_neg h] at hpre
    rcases List.prefix_cons_iff.mp hpre with rfl | ⟨t, rfl, ht⟩
    · exact List.nil_prefix
    · exact List.cons_prefix_cons.mpr ⟨rfl, ih t (fun hm => hp (List.mem_cons_of_mem _ hm)) ht⟩
  | case3 s h =>
    intro p _ hpre
    match s, h with
    | [], _ => exact hpre
    | [a], _ => exact hpre
    | [a, b], _ => exact hpre
    | a :: b :: c :: rest, h => exact absurd rfl (h a b c rest)

/-- A substring of the escaped text without backtick and without space is a
substring of the text. -/
theorem infix_of_infix_escRec (s : Str) :
    ∀ p : Str, BT ∉ p → 32 ∉ p → p <:+: escRec s → p <:+: s := by
  induction s using escRec.induct with
  | case1 a b c rest h ih =>
    obtain ⟨rfl, rfl, rfl⟩ := h
    intro p hp hs hin
    rw [escRec, if_pos ⟨rfl, rfl, rfl⟩] at hin
    have key : ∀ (x : Nat) (l : Str), (x = BT ∨ x = 32) → p <+: x :: l → p <:+: BT :: BT :: BT :: rest := by
      intro x l hx hpre
      rcases List.prefix_cons_iff.mp hpre with rfl | ⟨t, rfl, -⟩
      · exact List.nil_infix
      · rcases hx with rfl | rfl
        · exact absurd (List.mem_cons_self _ _) hp
        · exact absurd (List.mem_cons_self _ _) hs
    rcases List.infix_cons_iff.mp hin with hpre | hin
    · exact key _ _ (Or.inl rfl) hpre
    rcases List.infix_cons_iff.mp hin with hpre | hin
    · exact key _ _ (Or.inl rfl) hpre
    rcases List.infix_cons_iff.mp hin with hpre | hin
    · exact key _ _ (Or.inr rfl) hpre
    rcases List.infix_cons_iff.mp hin with hpre | hin
    · exact key _ _ (Or.inl rfl) hpre
    · exact (ih p hp hs hin).trans ((List.suffix_cons _ _).trans
        ((List.suffix_cons _ _).trans (List.suffix_cons _ _))).isInfix
  | case2 a b c rest h ih =>
    intro p hp hs hin
    rw [escRec, if_neg h] at hin
    rcases List.infix_cons_iff.mp hin with hpre | hin
    · rcases List.prefix_cons_iff.mp hpre with rfl | ⟨t, rfl, ht⟩
      · exact List.nil_infix
      · exact (List.cons_prefix_cons.mpr ⟨rfl, prefix_of_prefix_escRec _ t
          (fun hm => hp (List.mem_cons_of_mem _ hm)) ht⟩).isInfix
    · exact (ih p hp hs hin).trans (List.suffix_cons _ _).isInfix
  | case3 s h =>
    intro p _ _ hin
    match s, h with
    | [], _ => exact hin
    | [a], _ => exact hin
    | [a, b], _ => exact hin
    | a :: b :: c :: rest, h => exact absurd rfl (h a b c rest)

/-- The escape leaves a text without three backticks in a row as it is. -/
theorem escRec_eq_self (s : Str) (h : ¬ [BT, BT, BT] <:+: s) : escRec s = s := by
  induction s using escRec.induct with
  | case1 a b c rest h1 ih =>
    obtain ⟨rfl, rfl, rfl⟩ := h1
    exact absurd (List.prefix_append [BT, BT, BT] rest).isInfix h
  | case2 a b c rest h1 ih =>
    rw [escRec, if_neg h1, ih (fun hin => h (hin.trans (List.suffix_cons _ _).isInfix))]
  | case3 s h1 =>
    match s, h1 with
    | [], _ => rfl
    | [a], _ => rfl
    | [a, b], _ => rfl
    | a :: b :: c :: rest, h1 => exact absurd rfl (h1 a b c rest)

/-- The escape of a non-empty text is not empty. -/
theorem escapeTripleBackticks_ne_nil (s : Str) (h : s ≠ []) : escapeTripleBackticks s ≠ [] := by
  intro h0
  have hh := escRec_head s
  rw [← escapeTripleBackticks_eq, h0] at hh
  cases s with
  | nil => exact h rfl
  | cons a s => simp at hh

/-! ## Trimming -/

theorem trimStart_eq_self (s : Str) (h : ∀ c, s.head? = some c → isWhiteSpace c = false) :
    trimStart s = s := by
  cases s with
  | nil => rfl
  | cons a s => simp [trimStart, List.dropWhile_cons, h a rfl]

theorem trimEnd_eq_self (s : Str) (h : ∀ c, s.getLast? = some c → isWhiteSpace c = false) :
    trimEnd s = s := by
  have h2 : ∀ c, s.reverse.head? = some c → isWhiteSpace c = false := by
    intro c hc; exact h c (by simpa using hc)
  have := trimStart_eq_self s.reverse h2
  unfold trimStart at this
  simp [trimEnd, this]

theorem trim_eq_self (s : Str) (h : Trimmed s) : trim s = s := by
  rw [trim, trimStart_eq_self s h.1, trimEnd_eq_self s h.2]

theorem trimStart_head (s : Str) : ∀ c, (trimStart s).head? = some c → isWhiteSpace c = false := by
  intro c hc
  have := List.head?_dropWhile_not isWhiteSpace s
  unfold trimStart at hc
  rw [hc] at this
  simpa using this

theorem trimmed_trim (s : Str) : Trimmed (trim s) := by
  constructor
  · intro c hc
    obtain ⟨t, ht⟩ := trimEnd_isPrefix (trimStart s)
    apply trimStart_head s c
    rw [← ht]
    unfold trim at hc
    cases hte : trimEnd (trimStart s) with
    | nil => rw [hte] at hc; simp at hc
    | cons a l => rw [hte] at hc; simpa using hc
  · intro c hc
    have h1 := trimStart_head (trimStart s).reverse c
    apply h1
    unfold trim trimEnd at hc
    simpa [trimStart] using hc

/-- C10. For every string `s`, `normalizeText s` contains no run of three (or
more) consecutive line feeds. -/
theorem normalizeText_no_three_line_feeds (s : Str) :
    ¬ [LF, LF, LF] <:+: normalizeText s := by
  rw [normalizeText_eq]
  exact fun h => collapseRec_no_LF3 _ (h.trans (trim_isInfix _))

/-! ## The normalizer -/

/-- C2, as stated, fails: `normalize` is not idempotent on five backticks (the
escape of the escaped text escapes again), nor on `a CR CR LF b` (the first
pass leaves a CR LF that the second pass replaces). -/
theorem normalize_not_idempotent :
    normalize (normalize (lit "`````")) ≠ normalize (lit "`````") ∧
    normalize (normalize (lit "a\r\r\nb")) ≠ normalize (lit "a\r\r\nb") := by
  decide

/-- C2, amended. For every string `x` that contains neither a carriage return
followed by carriage return and line feed, nor five backticks in a row,
`normalize (normalize x) = normalize x`. -/
theorem normalize_idempotent_of_clean (x : Str)
    (hcr : ¬ [CR, CR, LF] <:+: x) (hbt : ¬ [BT, BT, BT, BT, BT] <:+: x) :
    normalize (normalize x) = normalize x := by
  have hy1 : ¬ [CR, LF] <:+: normalizeText x := by
    rw [normalizeText_eq]
    exact fun h => collapseRec_no_CRLF _ (crlfRec_no_CRLF x hcr) (h.trans (trim_isInfix _))
  have hy2 : ¬ [LF, LF, LF] <:+: normalizeText x := by
    rw [normalizeText_eq]
    exact fun h => collapseRec_no_LF3 _ (h.trans (trim_isInfix _))
  have hy3 : Trimmed (normalizeText x) := trimmed_trim _
  have hy4 : ¬ [BT, BT, BT, BT, BT] <:+: normalizeText x := by
    rw [normalizeText_eq]
    intro h
    exact hbt (infix_of_infix_crlfRec x _ (by decide)
      (infix_of_infix_collapseRec _ _ (by decide) (h.trans (trim_isInfix _))))
  have hz1 : ¬ [CR, LF] <:+: normalize x := by
    unfold normalize; rw [escapeTripleBackticks_eq]
    exact fun h => hy1 (infix_of_infix_escRec _ _ (by decide) (by decide) h)
  have hz2 : ¬ [LF, LF, LF] <:+: normalize x := by
    unfold normalize; rw [escapeTripleBackticks_eq]
    exact fun h => hy2 (infix_of_infix_escRec _ _ (by decide) (by decide) h)
  have hz3 : Trimmed (normalize x) := by
    unfold normalize; rw [escapeTripleBackticks_eq]
    exact ⟨by rw [escRec_head]; exact hy3.1, by rw [escRec_getLast]; exact hy3.2⟩
  have hz4 : ¬ [BT, BT, BT] <:+: normalize x := by
    unfold normalize; rw [escapeTripleBackticks_eq]
    exact escRec_no_BT3 _ hy4
  have hN : normalizeText (normalize x) = normalize x := by
    rw [normalizeText_eq, crlfRec_eq_self _ hz1, collapseRec_eq_self _ hz2, trim_eq_self _ hz3]
  show escapeTripleBackticks (normalizeText (normalize x)) = normalize x
  rw [hN, escapeTripleBackticks_eq, escRec_eq_self _ hz4]

/-- Witness of C2 amended: a text with CR LF line ends, five line feeds in a
row, a run of four backticks and surrounding white space. -/
theorem normalize_idempotent_of_clean_witness :
    ¬ [CR, CR, LF] <:+: lit " a\r\n\n\n\n\nb````c " ∧
    ¬ [BT, BT, BT, BT, BT] <:+: lit " a\r\n\n\n\n\nb````c " ∧
    normalize (normalize (lit " a\r\n\n\n\n\nb````c ")) = normalize (lit " a\r\n\n\n\n\nb````c ") :=
  ⟨by decide, by decide,
    normalize_idempotent_of_clean (lit " a\r\n\n\n\n\nb````c ") (by decide) (by decide)⟩

/-! ## escapeTripleBackticks leaves triple backticks behind -/

/-- C3, the failing input: five backticks are escaped to two backticks, a
space and three backticks; the example of the claim is escaped as it says. -/
theorem escapeTripleBackticks_five_backticks :
    escapeTripleBackticks (lit "`````") = lit "`` ```" ∧
    [BT, BT, BT] <:+: escapeTripleBackticks (lit "`````") ∧
    escapeTripleBackticks (lit "a```b") = lit "a`` `b" := by
  decide

/-! ## The message list -/

theorem extractFrom_foldl (nodes : List Dom) (acc : List Message) :
    nodes.foldl Convert.extractStep acc =
      acc ++ (nodes.filter (fun el => decide (Convert.contentOf el ≠ []))).map
        (fun el => ⟨Convert.inferRole el, Convert.contentOf el⟩) := by
  induction nodes generalizing acc with
  | nil => simp
  | cons el nodes ih =>
    rw [List.foldl_cons, ih]
    by_cases h : Convert.contentOf el = []
    · simp [Convert.extractStep, h]
    · simp [Convert.extractStep, h]

theorem collectFrom_foldl (innerText : Dom → Str) (nodes : List Dom) (acc : List Message) :
    nodes.foldl (Userscript.collectStep innerText) acc =
      acc ++ (nodes.filter
          (fun el => decide (Userscript.extractMessageText innerText el ≠ []))).map
        (fun el => ⟨Userscript.inferRole el, Userscript.extractMessageText innerText el⟩) := by
  induction nodes generalizing acc with
  | nil => simp
  | cons el nodes ih =>
    rw [List.foldl_cons, ih]
    by_cases h : Userscript.extractMessageText innerText el = []
    · simp [Userscript.collectStep, h]
    · simp [Userscript.collectStep, h]

/-- C4. For every sequence of candidate nodes, the message list of
`extractMessages` (convert.js) and of `collectMessages` (userscript) is, in the
order of the nodes, one message (the node's role and content) for each node
whose content is not empty, and nothing for the other nodes; no message has an
empty content; nodes with the texts `Hello` and white space only give the one
message `Hello`. -/
theorem messages_are_the_nonempty_nodes_in_order (innerText : Dom → Str) (nodes : List Dom) :
    Convert.extractFrom nodes =
      (nodes.filter (fun el => decide (Convert.contentOf el ≠ []))).map
        (fun el => ⟨Convert.inferRole el, Convert.contentOf el⟩) ∧
    Userscript.collectFrom innerText nodes =
      (nodes.filter (fun el => decide (Userscript.extractMessageText innerText el ≠ []))).map
        (fun el => ⟨Userscript.inferRole el, Userscript.extractMessageText innerText el⟩) ∧
    [] ∉ (Convert.extractFrom nodes).map Message.content ∧
    [] ∉ (Userscript.collectFrom innerText nodes).map Message.content ∧
    Convert.extractFrom
        [Dom.elem (lit "div") [] [Dom.text (lit "Hello")],
         Dom.elem (lit "div") [] [Dom.text (lit " \n ")]] =
      [⟨Role.Assistant, lit "Hello"⟩] ∧
    Userscript.collectFrom Dom.textContent
        [Dom.elem (lit "div") [] [Dom.text (lit "Hello")],
         Dom.elem (lit "div") [] [Dom.text (lit " \n ")]] =
      [⟨Role.Assistant, lit "Hello"⟩] := by
  have h1 := extractFrom_foldl nodes []
  have h2 := collectFrom_foldl innerText nodes []
  simp only [List.nil_append] at h1 h2
  refine ⟨h1, h2, ?_, ?_, by decide, by decide⟩
  · rw [Convert.extractFrom, h1]
    simp [List.mem_map, List.mem_filter]
  · rw [Userscript.collectFrom, h2]
    simp [List.mem_map, List.mem_filter]

/-! ## The serializer -/

theorem joinLines_cons_cons (a b : Str) (l : List Str) :
    joinLines (a :: b :: l) = a ++ LF :: joinLines (b :: l) := by
  simp [joinLines, List.intercalate]

theorem joinLines_append_empty (l : List Str) : joinLines (l ++ [[]]) = unlines l := by
  induction l with
  | nil => rfl
  | cons a l ih =>
    cases l with
    | nil => simp [joinLines, unlines, List.intercalate]
    | cons b l =>
      rw [List.cons_append, List.cons_append, joinLines_cons_cons, ← List.cons_append, ih]
      simp [unlines]

theorem unlines_append (l1 l2 : List Str) : unlines (l1 ++ l2) = unlines l1 ++ unlines l2 := by
  simp [unlines]

/-- The lines of convert.js after the loop: the header, then for each message
an empty line and its five lines, then the last empty line. -/
theorem convert_lines (header : List Str) (messages : List Message) :
    messages.foldl (fun ls m => ls ++ Convert.messageLines m) (header ++ [[]]) =
      (header ++ (messages.map (fun m =>
        [[], lit "## " ++ m.role.str, [], escapeTripleBackticks m.content, [], lit "---"])).flatten)
      ++ [[]] := by
  induction messages generalizing header with
  | nil => simp
  | cons m ms ih =>
    rw [List.foldl_cons]
    have h := ih (header ++ [[], lit "## " ++ m.role.str, [],
      escapeTripleBackticks m.content, [], lit "---"])
    simp only [Convert.messageLines, List.append_assoc, List.cons_append, List.nil_append,
      List.map_cons, List.flatten_cons] at h ⊢
    exact h

theorem unlines_header (title src iso : Str) :
    unlines [lit "# " ++ title, [], lit "- **Source**: " ++ src,
      lit "- **Exported at**: " ++ iso, [], lit "---"] = headerBlock title src iso := by
  simp [unlines, lit, headerBlock]

theorem unlines_message (role : Role) (content : Str) :
    unlines [[], lit "## " ++ role.str, [], content, [], lit "---"] =
      messageBlock role content := by
  simp [unlines, lit, messageBlock]

theorem unlines_flatten (ls : List (List Str)) :
    unlines ls.flatten = (ls.map unlines).flatten := by
  induction ls with
  | nil => rfl
  | cons a ls ih => rw [List.flatten_cons, unlines_append, ih]; rfl

/-- C5, as stated, fails: a message whose content is three backticks is not
written verbatim by `buildMarkdown` of convert.js. -/
theorem buildMarkdown_content_not_verbatim :
    Convert.buildMarkdown id ⟨2024, 0, 5, 9, 7⟩ (lit "T") (lit "chat.html")
        [⟨Role.User, lit "```"⟩] =
      headerBlock (lit "T") (lit "chat.html") (lit "2024-01-05 09:07") ++
        lit "\n## User\n\n`` `\n\n---\n" ∧
    Convert.buildMarkdown id ⟨2024, 0, 5, 9, 7⟩ (lit "T") (lit "chat.html")
        [⟨Role.User, lit "```"⟩] ≠
      headerBlock (lit "T") (lit "chat.html") (lit "2024-01-05 09:07") ++
        messageBlock Role.User (lit "```") := by
  decide

/-- C5, amended. For every title, source path, time and message list, the text
of `buildMarkdown` (convert.js) is the header block, with the base name of the
source path and the formatted time, followed for each message in order by its
block, the content being written with its triple backticks escaped; with no
message the text is the header block alone. -/
theorem buildMarkdown_template (basename : Str → Str) (now : LocalTime)
    (title sourcePath : Str) (messages : List Message) :
    Convert.buildMarkdown basename now title sourcePath messages =
      headerBlock title (basename sourcePath) (toISODateTimeLocal now) ++
        (messages.map
          (fun m => messageBlock m.role (escapeTripleBackticks m.content))).flatten ∧
    Convert.buildMarkdown basename now title sourcePath [] =
      headerBlock title (basename sourcePath) (toISODateTimeLocal now) := by
  have key : ∀ ms : List Message,
      Convert.buildMarkdown basename now title sourcePath ms =
        headerBlock title (basename sourcePath) (toISODateTimeLocal now) ++
          (ms.map (fun m => messageBlock m.role (escapeTripleBackticks m.content))).flatten := by
    intro ms
    show joinLines (ms.foldl (fun ls m => ls ++ Convert.messageLines m)
      ([lit "# " ++ title, [], lit "- **Source**: " ++ basename sourcePath,
        lit "- **Exported at**: " ++ toISODateTimeLocal now, [], lit "---"] ++ [[]])) = _
    rw [convert_lines, joinLines_append_empty, unlines_append, unlines_header, unlines_flatten,
      List.map_map]
    congr 3
    funext m
    exact unlines_message _ _
  exact ⟨key messages, by simpa using key []⟩

/-! ## Node selection -/

theorem selectNodes_eq (doc : Document) :
    Userscript.selectNodes doc = Convert.selectNodes doc := by
  unfold Userscript.selectNodes Convert.selectNodes
  simp only
  split <;> simp_all

theorem convert_selectNodes_of_empty (doc : Document)
    (h : querySelectorAll selPrimary doc = []) :
    Convert.selectNodes doc = querySelectorAll selFallback doc := by
  simp [Convert.selectNodes, h]

theorem convert_selectNodes_of_nonempty (doc : Document)
    (h : querySelectorAll selPrimary doc ≠ []) :
    Convert.selectNodes doc = querySelectorAll selPrimary doc := by
  simp [Convert.selectNodes, h]

/-- C6, as stated, fails: in a document with a conversation-turn container and
an article, and no node of the primary pattern, both are selected, not the
conversation-turn container alone. -/
theorem selectNodes_takes_all_fallbacks :
    querySelectorAll selPrimary [turnNode, articleNode] = [] ∧
    querySelectorAll selTurn [turnNode, articleNode] = [turnNode] ∧
    Convert.selectNodes [turnNode, articleNode] = [turnNode, articleNode] ∧
    Userscript.selectNodes [turnNode, articleNode] = [turnNode, articleNode] ∧
    Convert.selectNodes [turnNode, articleNode] ≠
      querySelectorAll selTurn [turnNode, articleNode] ∧
    Userscript.selectNodes [turnNode, articleNode] ≠
      querySelectorAll selTurn [turnNode, articleNode] :=
  ⟨rfl, rfl, rfl, rfl, fun h => absurd (congrArg List.length h) (by decide),
    fun h => absurd (congrArg List.length h) (by decide)⟩

/-- C6, amended. For every tree in which the primary pattern matches no node,
the node selection of both front ends is the one query of the fallback
selector list: every node that is a conversation-turn container, an article or
a section, in document order, with no priority among the three. Where no
article and no section exists these are the conversation-turn containers, and
where no conversation-turn container exists these are the articles and
sections. -/
theorem selectNodes_fallback (doc : Document)
    (h : querySelectorAll selPrimary doc = []) :
    Convert.selectNodes doc =
      (Dom.elemsOfList doc).filter (fun el => selTurn el || selArticle el || selSection el) ∧
    Userscript.selectNodes doc = Convert.selectNodes doc ∧
    (querySelectorAll (fun el => selArticle el || selSection el) doc = [] →
      Convert.selectNodes doc = querySelectorAll selTurn doc) ∧
    (querySelectorAll selTurn doc = [] →
      Convert.selectNodes doc = querySelectorAll (fun el => selArticle el || selSection el) doc) := by
  refine ⟨convert_selectNodes_of_empty doc h, selectNodes_eq doc, ?_, ?_⟩
  · intro h2
    rw [convert_selectNodes_of_empty doc h]
    unfold querySelectorAll at h2 ⊢
    rw [List.filter_eq_nil_iff] at h2
    apply List.filter_congr
    intro el hel
    have := h2 el hel
    simp only [Bool.or_eq_true, not_or, Bool.not_eq_true] at this
    simp [selFallback, this.1, this.2]
  · intro h2
    rw [convert_selectNodes_of_empty doc h]
    unfold querySelectorAll at h2 ⊢
    rw [List.filter_eq_nil_iff] at h2
    apply List.filter_congr
    intro el hel
    have := h2 el hel
    simp only [Bool.not_eq_true] at this
    simp [selFallback, this]

/-- Witness of C6 amended: the document of a conversation-turn container and
an article. -/
theorem selectNodes_fallback_witness :
    querySelectorAll selPrimary [turnNode, articleNode] = [] ∧
    Convert.selectNodes [turnNode, articleNode] =
      (Dom.elemsOfList [turnNode, articleNode]).filter
        (fun el => selTurn el || selArticle el || selSection el) :=
  ⟨rfl, (selectNodes_fallback [turnNode, articleNode] rfl).1⟩

/-- C7. For every tree: when the primary pattern matches no node and the
fallback patterns match at least one, the selection of both front ends is not
empty and holds only nodes that match a fallback pattern; the selection is
empty only when neither the primary nor a fallback pattern matches a node; and
when the primary pattern matches at least one node the selection is the
sequence of the primary matches. -/
theorem selectNodes_never_empty_when_some_pattern_matches (doc : Document) :
    (querySelectorAll selPrimary doc = [] → querySelectorAll selFallback doc ≠ [] →
      Convert.selectNodes doc ≠ [] ∧ (Convert.selectNodes doc).all selFallback = true) ∧
    (Convert.selectNodes doc = [] →
      querySelectorAll selPrimary doc = [] ∧ querySelectorAll selFallback doc = []) ∧
    (querySelectorAll selPrimary doc ≠ [] →
      Convert.selectNodes doc = querySelectorAll selPrimary doc) ∧
    Userscript.selectNodes doc = Convert.selectNodes doc := by
  refine ⟨?_, ?_, convert_selectNodes_of_nonempty doc, selectNodes_eq doc⟩
  · intro h1 h2
    rw [convert_selectNodes_of_empty doc h1]
    refine ⟨h2, ?_⟩
    simp [querySelectorAll, List.all_eq_true]
  · intro h
    by_cases h1 : querySelectorAll selPrimary doc = []
    · exact ⟨h1, by rw [← convert_selectNodes_of_empty doc h1]; exact h⟩
    · rw [convert_selectNodes_of_nonempty doc h1] at h
      exact absurd h h1

/-- Witness of C7: with a conversation-turn container and an article and no
node of the primary pattern, the selection is not empty and holds fallback
matches only. -/
theorem selectNodes_never_empty_witness :
    Convert.selectNodes [turnNode, articleNode] ≠ [] ∧
    (Convert.selectNodes [turnNode, articleNode]).all selFallback = true :=
  (selectNodes_never_empty_when_some_pattern_matches [turnNode, articleNode]).1 rfl
    (fun h => absurd (congrArg List.length h) (by decide))

/-! ## Role classification -/

theorem includes_nil_false (p : Str) (h : p ≠ []) : includes [] p = false := by
  cases p with
  | nil => exact absurd rfl h
  | cons a p => rfl

/-- C8. In both front ends, for every node whose author-role marker contains
`user`, `inferRole` is User; if it contains `assistant` and not `user`,
Assistant; if it contains `system` and neither `user` nor `assistant`, System;
whatever the class and the text of the node. -/
theorem inferRole_marker (el : Dom) (marker : Str)
    (h : el.attr (lit "data-message-author-role") = some marker) :
    (includes marker (lit "user") = true →
      Convert.inferRole el = Role.User ∧ Userscript.inferRole el = Role.User) ∧
    (includes marker (lit "user") = false → includes marker (lit "assistant") = true →
      Convert.inferRole el = Role.Assistant ∧ Userscript.inferRole el = Role.Assistant) ∧
    (includes marker (lit "user") = false → includes marker (lit "assistant") = false →
      includes marker (lit "system") = true →
      Convert.inferRole el = Role.System ∧ Userscript.inferRole el = Role.System) := by
  have hne : ∀ p : Str, p ≠ [] → includes marker p = true → marker ≠ [] := by
    intro p hp hi h0
    rw [h0, includes_nil_false p hp] at hi
    exact Bool.false_ne_true hi
  refine ⟨?_, ?_, ?_⟩
  · intro hu
    have := hne _ (by decide) hu
    simp [Convert.inferRole, Userscript.inferRole, h, hu, this]
  · intro hu ha
    have := hne _ (by decide) ha
    simp [Convert.inferRole, Userscript.inferRole, h, hu, ha, this]
  · intro hu ha hs
    have := hne _ (by decide) hs
    simp [Convert.inferRole, Userscript.inferRole, h, hu, ha, hs, this]

/-- Witness of C8: the marker `assistant-turn` on a node of class `user` whose
text begins with `You` gives Assistant in both front ends. -/
theorem inferRole_marker_witness :
    markedNode.attr (lit "data-message-author-role") = some (lit "assistant-turn") ∧
    Convert.inferRole markedNode = Role.Assistant ∧
    Userscript.inferRole markedNode = Role.Assistant :=
  ⟨rfl, (inferRole_marker markedNode (lit "assistant-turn") rfl).2.1 (by decide) (by decide)⟩

/-- C9, the failing input: a node without author-role marker, of class
`author-user-bubble`, whose text does not begin with `You`, is User for
convert.js and Assistant for the userscript, which does not read the class. -/
theorem inferRole_front_ends_differ :
    bubbleNode.attr (lit "data-message-author-role") = none ∧
    startsWith bubbleNode.textContent (lit "You") = false ∧
    Convert.inferRole bubbleNode = Role.User ∧
    Userscript.inferRole bubbleNode = Role.Assistant := by
  decide

/-! ## Line endings -/

theorem crOnlyBeforeLF_tail (a : Nat) (s : Str) (h : crOnlyBeforeLF (a :: s) = true) :
    crOnlyBeforeLF s = true := by
  cases s with
  | nil => rfl
  | cons b rest =>
    simp only [crOnlyBeforeLF, Bool.and_eq_true] at h
    exact h.2

/-- Where every carriage return is followed by a line feed, the replacement of
CR LF leaves no carriage return. -/
theorem crlfRec_no_CR (s : Str) (h : crOnlyBeforeLF s = true) : CR ∉ crlfRec s := by
  induction s using crlfRec.induct with
  | case1 a b rest h1 ih =>
    obtain ⟨rfl, rfl⟩ := h1
    rw [crlfRec, if_pos ⟨rfl, rfl⟩]
    have h2 := crOnlyBeforeLF_tail _ _ (crOnlyBeforeLF_tail _ _ h)
    simp only [List.mem_cons, not_or]
    exact ⟨by decide, ih h2⟩
  | case2 a b rest h1 ih =>
    rw [crlfRec, if_neg h1]
    have h2 := crOnlyBeforeLF_tail _ _ h
    simp only [crOnlyBeforeLF, Bool.and_eq_true, Bool.or_eq_true, bne_iff_ne, ne_eq,
      beq_iff_eq] at h
    simp only [List.mem_cons, not_or]
    refine ⟨fun hc => ?_, ih h2⟩
    rcases h.1 with h3 | h3
    · exact h3 hc.symm
    · exact h1 ⟨hc.symm, h3⟩
  | case3 s h1 =>
    match s, h1 with
    | [], _ => simp [crlfRec]
    | [a], _ =>
      simp only [crOnlyBeforeLF, bne_iff_ne, ne_eq] at h
      simpa [crlfRec] using fun hc => h hc.symm
    | a :: b :: rest, h1 => exact absurd rfl (h1 a b rest)

/-- The collapse only removes code units. -/
theorem collapseRec_sublist (s : Str) : (collapseRec s).Sublist s := by
  induction s using collapseRec.induct with
  | case1 a b c rest h ih =>
    rw [collapseRec, if_pos h]
    exact ih.trans (List.sublist_cons_self _ _)
  | case2 a b c rest h ih =>
    rw [collapseRec, if_neg h]
    exact ih.cons₂ a
  | case3 s h =>
    match s, h with
    | [], _ => exact List.Sublist.refl _
    | [a], _ => exact List.Sublist.refl _
    | [a, b], _ => exact List.Sublist.refl _
    | a :: b :: c :: rest, h => exact absurd rfl (h a b c rest)

/-- C11, as stated, fails: a carriage return that no line feed follows stays
in the text. -/
theorem normalizeText_keeps_lone_CR :
    normalizeText (lit "a\rb") = lit "a\rb" ∧ CR ∈ normalizeText (lit "a\rb") := by
  decide

/-- C11, amended. For every string `s` in which every carriage return is
followed by a line feed, `normalizeText s` contains no carriage return. -/
theorem normalizeText_no_CR (s : Str) (h : crOnlyBeforeLF s = true) :
    CR ∉ normalizeText s := by
  rw [normalizeText_eq]
  intro hc
  exact crlfRec_no_CR s h ((collapseRec_sublist _).subset (mem_of_mem_trim hc))

/-- Witness of C11 amended: a text with two CR LF line ends. -/
theorem normalizeText_no_CR_witness :
    crOnlyBeforeLF (lit "a\r\nb\r\n\r\nc") = true ∧
    CR ∉ normalizeText (lit "a\r\nb\r\n\r\nc") :=
  ⟨by decide, normalizeText_no_CR (lit "a\r\nb\r\n\r\nc") (by decide)⟩

/-! ## The content of the two front ends -/

/-- C12, as stated, fails: on three line feeds in a row, and on a CR LF, the
userscript (which trims and escapes) and convert.js (which normalizes, then
escapes when it writes) give different contents. -/
theorem front_ends_content_differ :
    escapeTripleBackticks (trim (lit "a\n\n\nb")) = lit "a\n\n\nb" ∧
    escapeTripleBackticks (normalizeText (lit "a\n\n\nb")) = lit "a\n\nb" ∧
    escapeTripleBackticks (trim (lit "a\r\nb")) ≠
      escapeTripleBackticks (normalizeText (lit "a\r\nb")) ∧
    Userscript.extractMessageText Dom.textContent
        (Dom.elem (lit "div") [] [Dom.text (lit "a\n\n\nb")]) = lit "a\n\n\nb" ∧
    escapeTripleBackticks
        (Convert.contentOf (Dom.elem (lit "div") [] [Dom.text (lit "a\n\n\nb")])) =
      lit "a\n\nb" := by
  decide

theorem extractMessageText_eq (innerText : Dom → Str) (el : Dom) :
    Userscript.extractMessageText innerText el =
      escapeTripleBackticks (trim (innerText (Userscript.targetOf el))) := rfl

theorem contentOf_eq (el : Dom) :
    Convert.contentOf el = normalizeText (Convert.targetOf el).textContent := by
  unfold Convert.contentOf Convert.targetOf Convert.textOf
  cases (el.descendants.filter (selMarkdown isWhiteSpace)).head? <;> rfl

theorem trim_eq_normalizeText (t : Str)
    (h1 : ¬ [CR, LF] <:+: t) (h2 : ¬ [LF, LF, LF] <:+: t) : trim t = normalizeText t := by
  rw [normalizeText_eq, crlfRec_eq_self t h1, collapseRec_eq_self t h2]

/-- C12, amended. For every node, the content that `extractMessageText` of the
userscript returns is the raw text of its target (the `innerText`), trimmed and
with its triple backticks escaped: it is not passed through `normalizeText`.
The content that convert.js writes is `escapeTripleBackticks (normalizeText t)`
of the raw text `t` of its target. Where both front ends read the same raw text
`t`, and `t` has no CR LF and no three line feeds in a row, the two contents are
equal; for every such `t`, `escapeTripleBackticks (trim t)` equals
`escapeTripleBackticks (normalizeText t)`. -/
theorem front_ends_content_agree (innerText : Dom → Str) (el : Dom) :
    Userscript.extractMessageText innerText el =
      escapeTripleBackticks (trim (innerText (Userscript.targetOf el))) ∧
    escapeTripleBackticks (Convert.contentOf el) =
      escapeTripleBackticks (normalizeText (Convert.targetOf el).textContent) ∧
    (∀ t : Str, innerText (Userscript.targetOf el) = t →
      (Convert.targetOf el).textContent = t →
      ¬ [CR, LF] <:+: t → ¬ [LF, LF, LF] <:+: t →
      Userscript.extractMessageText innerText el =
        escapeTripleBackticks (Convert.contentOf el)) ∧
    (∀ t : Str, ¬ [CR, LF] <:+: t → ¬ [LF, LF, LF] <:+: t →
      escapeTripleBackticks (trim t) = escapeTripleBackticks (normalizeText t)) := by
  refine ⟨extractMessageText_eq innerText el, by rw [contentOf_eq], ?_, ?_⟩
  · intro t hu hc h1 h2
    rw [extractMessageText_eq, contentOf_eq, hu, hc, trim_eq_normalizeText t h1 h2]
  · intro t h1 h2
    rw [trim_eq_normalizeText t h1 h2]

/-- Witness of C12 amended: a node of two paragraphs with a code fence, read
with the same raw text by both front ends. -/
theorem front_ends_content_agree_witness :
    ¬ [CR, LF] <:+: lit " a\n\n```b\n " ∧ ¬ [LF, LF, LF] <:+: lit " a\n\n```b\n " ∧
    Userscript.extractMessageText Dom.textContent fencedNode = lit "a\n\n`` `b" ∧
    Userscript.extractMessageText Dom.textContent fencedNode =
      escapeTripleBackticks (Convert.contentOf fencedNode) :=
  ⟨by decide, by decide,
    (front_ends_content_agree Dom.textContent fencedNode).1.trans (by decide),
    (front_ends_content_agree Dom.textContent fencedNode).2.2.1 (lit " a\n\n```b\n ")
      rfl rfl (by decide) (by decide)⟩

/-! ## sanitizeFileName against its reference form -/

theorem replaceForbidden_eq_map (name : Str) :
    replaceAll reForbidden [45] 0 name =
      name.map (fun c => if c ∈ forbiddenChars then 45 else c) := by
  induction name with
  | nil => rfl
  | cons a rest ih =>
    by_cases ha : a ∈ forbiddenChars
    · have hm : reForbidden (a :: rest) = 0 + 1 := by simp [reForbidden, ha]
      rw [replaceAll_cons_of_match _ _ _ _ 0 hm, List.drop_zero, ih]
      simp [ha]
    · have hm : reForbidden (a :: rest) = 0 := by simp [reForbidden, ha]
      rw [replaceAll_cons_of_no_match _ _ _ _ hm, ih]
      simp [ha]

/-- C14. For every string `name`, `sanitizeFileName name` is the value of the
reference definition: every character of the set replaced by a hyphen, the
first 80 code units of that, trimmed, or `conversation` exactly when that is
empty. Both are total functions. -/
theorem sanitizeFileName_eq_spec (name : Str) :
    sanitizeFileName name = sanitizeSpec name ∧
    (sanitizeFileName name = lit "conversation" ↔
      trim ((name.map (fun c => if c ∈ forbiddenChars then 45 else c)).take 80) = [] ∨
      trim ((name.map (fun c => if c ∈ forbiddenChars then 45 else c)).take 80) =
        lit "conversation") := by
  have h : sanitizeFileName name = sanitizeSpec name := by
    unfold sanitizeFileName sanitizeSpec
    simp only [replaceForbidden_eq_map, List.isEmpty_iff]
  refine ⟨h, ?_⟩
  unfold sanitizeFileName
  simp only [replaceForbidden_eq_map]
  split
  · rename_i h0; simp [h0]
  · rename_i h0; simp [h0]

/-- C20. `sanitizeFileName` is idempotent. -/
theorem sanitizeFileName_idempotent (name : Str) :
    sanitizeFileName (sanitizeFileName name) = sanitizeFileName name := by
  by_cases h0 : trim ((replaceAll reForbidden [45] 0 name).take 80) = []
  · have h1 : sanitizeFileName name = lit "conversation" := by
      simp [sanitizeFileName, h0]
    rw [h1]
    decide
  · have h1 : sanitizeFileName name = trim ((replaceAll reForbidden [45] 0 name).take 80) := by
      simp [sanitizeFileName, h0]
    rw [h1]
    generalize hr : trim ((replaceAll reForbidden [45] 0 name).take 80) = r at h0
    have hfree : ∀ c ∈ r, c ∉ forbiddenChars := by
      intro c hc
      rw [← hr] at hc
      exact replaceAll_forbidden_free name 0 c (List.mem_of_mem_take (mem_of_mem_trim hc))
    have hlen : r.length ≤ 80 := by
      rw [← hr]; exact (trim_length_le _).trans (by simp)
    have htr : Trimmed r := by rw [← hr]; exact trimmed_trim _
    have hmap : replaceAll reForbidden [45] 0 r = r := by
      rw [replaceForbidden_eq_map]
      conv_rhs => rw [← List.map_id r]
      apply List.map_congr_left
      intro c hc
      simp [hfree c hc]
    have : trim ((replaceAll reForbidden [45] 0 r).take 80) = r := by
      rw [hmap, List.take_of_length_le hlen, trim_eq_self r htr]
    simp [sanitizeFileName, this, h0]

/-! ## The header fields -/

/-- The lines of the userscript after the loop, as `convert_lines`. -/
theorem userscript_lines (header : List Str) (messages : List Message) :
    messages.foldl (fun ls m => ls ++ Userscript.messageLines m) (header ++ [[]]) =
      (header ++ (messages.map (fun m =>
        [[], lit "## " ++ m.role.str, [], m.content, [], lit "---"])).flatten)
      ++ [[]] := by
  induction messages generalizing header with
  | nil => simp
  | cons m ms ih =>
    rw [List.foldl_cons]
    have h := ih (header ++ [[], lit "## " ++ m.role.str, [], m.content, [], lit "---"])
    simp only [Userscript.messageLines, List.append_assoc, List.cons_append, List.nil_append,
      List.map_cons, List.flatten_cons] at h ⊢
    exact h

/-- The text of convert.js begins with its first four lines. -/
theorem convert_buildMarkdown_head (basename : Str → Str) (now : LocalTime)
    (title sourcePath : Str) (messages : List Message) :
    ∃ rest, Convert.buildMarkdown basename now title sourcePath messages =
      (lit "# " ++ title) ++ LF :: ([] ++ LF :: ((lit "- **Source**: " ++ basename sourcePath) ++
        LF :: ((lit "- **Exported at**: " ++ toISODateTimeLocal now) ++ LF :: rest))) := by
  refine ⟨[] ++ LF :: (lit "---" ++ LF :: unlines ((messages.map (fun m =>
    [[], lit "## " ++ m.role.str, [], escapeTripleBackticks m.content, [],
      lit "---"])).flatten)), ?_⟩
  unfold Convert.buildMarkdown
  show joinLines (messages.foldl (fun ls m => ls ++ Convert.messageLines m)
    ([lit "# " ++ title, [], lit "- **Source**: " ++ basename sourcePath,
      lit "- **Exported at**: " ++ toISODateTimeLocal now, [], lit "---"] ++ [[]])) = _
  rw [convert_lines, joinLines_append_empty, unlines_append]
  simp only [unlines, List.map_cons, List.flatten_cons, List.append_assoc, List.cons_append,
    List.nil_append, List.singleton_append]
  rfl

/-- The text of the userscript begins with its first four lines. -/
theorem userscript_buildMarkdown_head (title url exportedAt : Str) (messages : List Message) :
    ∃ rest, Userscript.buildMarkdown title url exportedAt messages =
      (lit "# " ++ title) ++ LF :: ([] ++ LF :: ((lit "- **URL**: " ++ url) ++
        LF :: ((lit "- **Exported at**: " ++ exportedAt) ++ LF :: rest))) := by
  refine ⟨[] ++ LF :: (lit "---" ++ LF :: unlines ((messages.map (fun m =>
    [[], lit "## " ++ m.role.str, [], m.content, [], lit "---"])).flatten)), ?_⟩
  unfold Userscript.buildMarkdown
  show joinLines (messages.foldl (fun ls m => ls ++ Userscript.messageLines m)
    ([lit "# " ++ title, [], lit "- **URL**: " ++ url,
      lit "- **Exported at**: " ++ exportedAt, [], lit "---"] ++ [[]])) = _
  rw [userscript_lines, joinLines_append_empty, unlines_append]
  simp only [unlines, List.map_cons, List.flatten_cons, List.append_assoc, List.cons_append,
    List.nil_append, List.singleton_append]
  rfl

/-- The first line of a text ends at its first line feed. -/
theorem linesOf_append_LF (a rest : Str) (h : LF ∉ a) :
    linesOf (a ++ LF :: rest) = a :: linesOf rest := by
  unfold linesOf List.splitOn
  refine List.splitOnP_first (fun c => c == LF) a (fun x hx hp => h ?_) LF (by simp) rest
  have hx2 : x = LF := by simpa using hp
  exact hx2 ▸ hx

/-- The lines of a text that begins with four lines without line feed. -/
theorem linesOf_four (l1 l2 l3 l4 rest : Str)
    (h1 : LF ∉ l1) (h2 : LF ∉ l2) (h3 : LF ∉ l3) (h4 : LF ∉ l4) :
    linesOf (l1 ++ LF :: (l2 ++ LF :: (l3 ++ LF :: (l4 ++ LF :: rest)))) =
      l1 :: l2 :: l3 :: l4 :: linesOf rest := by
  rw [linesOf_append_LF _ _ h1, linesOf_append_LF _ _ h2, linesOf_append_LF _ _ h3,
    linesOf_append_LF _ _ h4]

/-! ## Decimal digits -/

theorem digitChar_toNat (d : Nat) (h : d < 10) : (Nat.digitChar d).toNat = d + 48 := by
  interval_cases d <;> rfl

theorem toDigitsCore_step (fuel n : Nat) (ds : List Char) :
    Nat.toDigitsCore 10 (fuel + 1) n ds =
      if n / 10 = 0 then Nat.digitChar (n % 10) :: ds
      else Nat.toDigitsCore 10 fuel (n / 10) (Nat.digitChar (n % 10) :: ds) := by
  rw [Nat.toDigitsCore]

theorem toDigitsCore_all (P : Char → Prop) (hd : ∀ k, k < 10 → P (Nat.digitChar k)) :
    ∀ (fuel n : Nat) (ds : List Char), (∀ c ∈ ds, P c) →
      ∀ c ∈ Nat.toDigitsCore 10 fuel n ds, P c := by
  intro fuel
  induction fuel with
  | zero => intro n ds hds c hc; exact hds c (by simpa [Nat.toDigitsCore] using hc)
  | succ fuel ih =>
    intro n ds hds c hc
    have hcons : ∀ c ∈ Nat.digitChar (n % 10) :: ds, P c := by
      intro c hc
      rcases List.mem_cons.mp hc with rfl | h
      · exact hd _ (Nat.mod_lt n (by decide))
      · exact hds c h
    rw [toDigitsCore_step] at hc
    split at hc
    · exact hcons c hc
    · exact ih _ _ hcons c hc

theorem decimal_no_LF (n : Nat) : LF ∉ decimal n := by
  intro h
  unfold decimal at h
  obtain ⟨c, hc, hc2⟩ := List.mem_map.mp h
  refine toDigitsCore_all (fun c => c.toNat ≠ 10) ?_ _ _ [] (by simp) c hc hc2
  intro k hk
  rw [digitChar_toNat k hk]
  omega

theorem decimal_one (n : Nat) (h : n < 10) : decimal n = [n + 48] := by
  unfold decimal Nat.toDigits
  rw [toDigitsCore_step, if_pos (by omega), Nat.mod_eq_of_lt h]
  simp [digitChar_toNat n h]

theorem decimal_two (n : Nat) (h1 : 10 ≤ n) (h2 : n < 100) :
    decimal n = [n / 10 + 48, n % 10 + 48] := by
  unfold decimal Nat.toDigits
  obtain ⟨m, rfl⟩ : ∃ m, n = m + 1 := ⟨n - 1, by omega⟩
  rw [toDigitsCore_step, if_neg (by omega), toDigitsCore_step, if_pos (by omega)]
  have e : (m + 1) / 10 % 10 = (m + 1) / 10 := by omega
  simp [digitChar_toNat _ (Nat.mod_lt _ (by decide : 10 > 0)), e,
    digitChar_toNat ((m + 1) / 10) (by omega)]

theorem decimal_four (n : Nat) (h1 : 1000 ≤ n) (h2 : n < 10000) :
    decimal n = [n / 1000 + 48, n / 100 % 10 + 48, n / 10 % 10 + 48, n % 10 + 48] := by
  unfold decimal Nat.toDigits
  obtain ⟨m, rfl⟩ : ∃ m, n = m + 3 := ⟨n - 3, by omega⟩
  rw [toDigitsCore_step, if_neg (by omega), toDigitsCore_step, if_neg (by omega),
    toDigitsCore_step, if_neg (by omega), toDigitsCore_step, if_pos (by omega)]
  have e1 : (m + 3) / 10 / 10 / 10 % 10 = (m + 3) / 1000 := by omega
  have e2 : (m + 3) / 10 / 10 % 10 = (m + 3) / 100 % 10 := by omega
  simp [digitChar_toNat _ (Nat.mod_lt _ (by decide : 10 > 0)), e1, e2,
    digitChar_toNat ((m + 3) / 1000) (by omega)]

theorem pad_eq (n : Nat) (h : n < 100) : pad n = [n / 10 + 48, n % 10 + 48] := by
  unfold pad
  by_cases h10 : n < 10
  · rw [decimal_one n h10]
    have e1 : n / 10 = 0 := by omega
    have e2 : n % 10 = n := by omega
    simp [e1, e2]
  · rw [decimal_two n (by omega) h]
    simp

theorem pad_no_LF (n : Nat) : LF ∉ pad n := by
  unfold pad
  simp only [List.mem_append, List.mem_replicate, not_or]
  exact ⟨fun h => absurd h.2 (by decide), decimal_no_LF n⟩

theorem toISODateTimeLocal_no_LF (d : LocalTime) : LF ∉ toISODateTimeLocal d := by
  unfold toISODateTimeLocal
  simp only [List.mem_append, not_or]
  exact ⟨⟨⟨⟨⟨⟨⟨⟨decimal_no_LF _, by decide⟩, pad_no_LF _⟩, by decide⟩, pad_no_LF _⟩, by decide⟩,
    pad_no_LF _⟩, by decide⟩, pad_no_LF _⟩

/-- C17. For every local time with a year from 1000 to 9999, a month index
from 0 to 11, a day from 1 to 31, an hour up to 23 and a minute up to 59, the
export timestamp is the 16 code units `YYYY-MM-DD HH:MM`: the four digits of
the year, a hyphen, the two digits of the month index plus one, a hyphen, the
two digits of the day, a space, the two digits of the hour, a colon and the two
digits of the minute, and nothing after them. -/
theorem toISODateTimeLocal_format (d : LocalTime)
    (hy1 : 1000 ≤ d.year) (hy2 : d.year ≤ 9999) (hm : d.month ≤ 11)
    (hd1 : 1 ≤ d.date) (hd2 : d.date ≤ 31) (hh : d.hours ≤ 23) (hmin : d.minutes ≤ 59) :
    toISODateTimeLocal d =
      [d.year / 1000 + 48, d.year / 100 % 10 + 48, d.year / 10 % 10 + 48, d.year % 10 + 48,
       45, (d.month + 1) / 10 + 48, (d.month + 1) % 10 + 48,
       45, d.date / 10 + 48, d.date % 10 + 48,
       32, d.hours / 10 + 48, d.hours % 10 + 48,
       58, d.minutes / 10 + 48, d.minutes % 10 + 48] ∧
    (toISODateTimeLocal d).length = 16 := by
  have h : toISODateTimeLocal d =
      [d.year / 1000 + 48, d.year / 100 % 10 + 48, d.year / 10 % 10 + 48, d.year % 10 + 48,
       45, (d.month + 1) / 10 + 48, (d.month + 1) % 10 + 48,
       45, d.date / 10 + 48, d.date % 10 + 48,
       32, d.hours / 10 + 48, d.hours % 10 + 48,
       58, d.minutes / 10 + 48, d.minutes % 10 + 48] := by
    unfold toISODateTimeLocal
    rw [decimal_four d.year hy1 (by omega), pad_eq (d.month + 1) (by omega),
      pad_eq d.date (by omega), pad_eq d.hours (by omega), pad_eq d.minutes (by omega)]
    rfl
  exact ⟨h, by rw [h]; rfl⟩

/-- Witness of C17: 5 January 2024, 09:07. -/
theorem toISODateTimeLocal_format_witness :
    toISODateTimeLocal ⟨2024, 0, 5, 9, 7⟩ = lit "2024-01-05 09:07" ∧
    (toISODateTimeLocal ⟨2024, 0, 5, 9, 7⟩).length = 16 :=
  toISODateTimeLocal_format ⟨2024, 0, 5, 9, 7⟩ (by decide) (by decide) (by decide) (by decide)
    (by decide) (by decide) (by decide)

/-- C13, as stated, fails: the third line of the userscript's header is the
`URL` field, not a `Source` field; and where the title has a line feed the
third line of convert.js's text is not the `Source` field either. -/
theorem header_third_line_not_always_source :
    (linesOf (Userscript.buildMarkdown (lit "T") (lit "https://chatgpt.com/c/1")
        (lit "2024-01-05 09:07") []))[2]? = some (lit "- **URL**: https://chatgpt.com/c/1") ∧
    (linesOf (Userscript.buildMarkdown (lit "T") (lit "https://chatgpt.com/c/1")
        (lit "2024-01-05 09:07") []))[2]? ≠
      some (lit "- **Source**: https://chatgpt.com/c/1") ∧
    (linesOf (Convert.buildMarkdown id ⟨2024, 0, 5, 9, 7⟩ (lit "a\nb") (lit "chat.html")
        []))[2]? = some [] := by
  decide

/-- C13, amended. For every conversation whose title, source name, URL and
timestamp have no line feed: in the text of convert.js the third line is
`- **Source**: ` followed by the base name of the source path and the fourth is
`- **Exported at**: ` followed by the formatted time; in the text of the
userscript the third line is `- **URL**: ` followed by the URL (it has no
`Source` field) and the fourth is `- **Exported at**: ` followed by the
timestamp. -/
theorem header_fields (basename : Str → Str) (now : LocalTime)
    (title sourcePath url exportedAt : Str) (messages : List Message)
    (ht : LF ∉ title) (hs : LF ∉ basename sourcePath) (hu : LF ∉ url) (he : LF ∉ exportedAt) :
    (linesOf (Convert.buildMarkdown basename now title sourcePath messages))[2]? =
      some (lit "- **Source**: " ++ basename sourcePath) ∧
    (linesOf (Convert.buildMarkdown basename now title sourcePath messages))[3]? =
      some (lit "- **Exported at**: " ++ toISODateTimeLocal now) ∧
    (linesOf (Userscript.buildMarkdown title url exportedAt messages))[2]? =
      some (lit "- **URL**: " ++ url) ∧
    (linesOf (Userscript.buildMarkdown title url exportedAt messages))[3]? =
      some (lit "- **Exported at**: " ++ exportedAt) := by
  have hlit : ∀ (l x : Str), LF ∉ l → LF ∉ x → LF ∉ l ++ x := by
    intro l x h1 h2 h
    rcases List.mem_append.mp h with h | h
    · exact h1 h
    · exact h2 h
  obtain ⟨r1, h1⟩ := convert_buildMarkdown_head basename now title sourcePath messages
  obtain ⟨r2, h2⟩ := userscript_buildMarkdown_head title url exportedAt messages
  rw [h1, h2,
    linesOf_four _ _ _ _ r1 (hlit _ _ (by decide) ht) (by simp) (hlit _ _ (by decide) hs)
      (hlit _ _ (by decide) (toISODateTimeLocal_no_LF now)),
    linesOf_four _ _ _ _ r2 (hlit _ _ (by decide) ht) (by simp) (hlit _ _ (by decide) hu)
      (hlit _ _ (by decide) he)]
  simp

/-- Witness of C13 amended: a conversation of one message. -/
theorem header_fields_witness :
    (linesOf (Convert.buildMarkdown id ⟨2024, 0, 5, 9, 7⟩ (lit "T") (lit "chat.html")
        [⟨Role.User, lit "x\ny"⟩]))[2]? = some (lit "- **Source**: " ++ lit "chat.html") ∧
    (linesOf (Userscript.buildMarkdown (lit "T") (lit "https://chatgpt.com/c/1")
        (lit "2024-01-05 09:07") [⟨Role.User, lit "x\ny"⟩]))[2]? =
      some (lit "- **URL**: " ++ lit "https://chatgpt.com/c/1") :=
  have h := header_fields id ⟨2024, 0, 5, 9, 7⟩ (lit "T") (lit "chat.html")
    (lit "https://chatgpt.com/c/1") (lit "2024-01-05 09:07") [⟨Role.User, lit "x\ny"⟩]
    (by decide) (by decide) (by decide) (by decide)
  ⟨h.1, h.2.2.1⟩

/-! ## Role classification by class and by text -/

theorem tails_map (f : Nat → Nat) (s : Str) : (s.map f).tails = s.tails.map (List.map f) := by
  induction s with
  | nil => rfl
  | cons a s ih => simp [List.tails, ih]

theorem any_or (f g : Str → Bool) (l : List Str) :
    l.any (fun t => f t || g t) = (l.any f || l.any g) := by
  induction l with
  | nil => rfl
  | cons a l ih =>
    simp only [List.any_cons, ih]
    cases f a <;> cases g a <;> cases l.any f <;> cases l.any g <;> rfl

/-- A case-insensitive literal matches somewhere exactly when it occurs
without regard to case. -/
theorem reTest_reLitCI (p s : Str) (hp : p ≠ []) : reTest (reLitCI p) s = includesCI s p := by
  have hlen : p.length ≠ 0 := fun h => hp (List.length_eq_zero.mp h)
  unfold reTest includesCI includes
  rw [tails_map, List.any_map]
  congr 1
  funext t
  cases hpre : (p.map canonicalize).isPrefixOf (t.map canonicalize) with
  | true => simp [reLitCI, hpre, hlen]
  | false => simp [reLitCI, hpre]

theorem reTest_reAlt (r1 r2 : Str → Nat) (s : Str) :
    reTest (reAlt r1 r2) s = (reTest r1 s || reTest r2 s) := by
  unfold reTest
  rw [← any_or]
  congr 1
  funext t
  simp only [reAlt]
  split <;> simp_all

theorem reTest_assistantLike (cls : Str) :
    reTest reAssistantLike cls =
      (includesCI cls (lit "assistant") || includesCI cls (lit "bot")) := by
  rw [reAssistantLike, reTest_reAlt, reTest_reLitCI _ _ (by decide),
    reTest_reLitCI _ _ (by decide)]

theorem reTest_userLike (cls : Str) :
    reTest reUserLike cls =
      (includesCI cls (lit "user") || includesCI cls (lit "me") ||
        includesCI cls (lit "author-user")) := by
  rw [reUserLike, reTest_reAlt, reTest_reAlt, reTest_reLitCI _ _ (by decide),
    reTest_reLitCI _ _ (by decide), reTest_reLitCI _ _ (by decide), Bool.or_assoc]

/-- C18. In convert.js, for every node whose author-role marker is absent or
contains none of `user`, `assistant`, `system`: `inferRole` is Assistant if the
class contains `assistant` or `bot` without regard to case; otherwise User if
the class contains `user`, `me` or `author-user` without regard to case;
otherwise Assistant. The assistant-like test comes first, and the role is
always one of the three. -/
theorem convert_inferRole_by_class (el : Dom)
    (h : ∀ m, el.attr (lit "data-message-author-role") = some m →
      includes m (lit "user") = false ∧ includes m (lit "assistant") = false ∧
        includes m (lit "system") = false) :
    Convert.inferRole el =
      (if includesCI ((el.attr (lit "class")).getD []) (lit "assistant") = true ∨
          includesCI ((el.attr (lit "class")).getD []) (lit "bot") = true then Role.Assistant
       else if includesCI ((el.attr (lit "class")).getD []) (lit "user") = true ∨
          includesCI ((el.attr (lit "class")).getD []) (lit "me") = true ∨
          includesCI ((el.attr (lit "class")).getD []) (lit "author-user") = true
        then Role.User
       else Role.Assistant) ∧
    (Convert.inferRole el = Role.User ∨ Convert.inferRole el = Role.Assistant ∨
      Convert.inferRole el = Role.System) := by
  have hm : includes ((el.attr (lit "data-message-author-role")).getD []) (lit "user") = false ∧
      includes ((el.attr (lit "data-message-author-role")).getD []) (lit "assistant") = false ∧
      includes ((el.attr (lit "data-message-author-role")).getD []) (lit "system") = false := by
    cases hattr : el.attr (lit "data-message-author-role") with
    | none => exact ⟨by decide, by decide, by decide⟩
    | some m => exact h m hattr
  refine ⟨?_, ?_⟩
  · unfold Convert.inferRole
    simp only [hm.1, hm.2.1, hm.2.2, reTest_assistantLike, reTest_userLike, Bool.or_eq_true,
      Bool.false_eq_true, if_false, or_assoc]
  · cases Convert.inferRole el
    · exact Or.inl rfl
    · exact Or.inr (Or.inl rfl)
    · exact Or.inr (Or.inr rfl)

/-- Witness of C18: without marker, the class `user-bot` gives Assistant. -/
theorem convert_inferRole_by_class_witness :
    Convert.inferRole (Dom.elem (lit "div") [(lit "class", lit "user-bot")] []) =
      Role.Assistant := by
  have hnone : (Dom.elem (lit "div") [(lit "class", lit "user-bot")] []).attr
      (lit "data-message-author-role") = none := rfl
  have h := (convert_inferRole_by_class
    (Dom.elem (lit "div") [(lit "class", lit "user-bot")] [])
    (fun m hm => absurd (hnone.symm.trans hm) (by simp))).1
  rw [h]
  decide

/-- C19. In the userscript, for every node whose author-role marker is absent,
empty, or contains none of `user`, `assistant`, `system`: `inferRole` is User
if and only if the text of the node begins with `You`, and Assistant
otherwise. When the marker contains one of the three words the role is the one
the marker decides, whatever the text. -/
theorem userscript_inferRole_by_text (el : Dom)
    (h : ∀ m, el.attr (lit "data-message-author-role") = some m →
      includes m (lit "user") = false ∧ includes m (lit "assistant") = false ∧
        includes m (lit "system") = false) :
    (Userscript.inferRole el = Role.User ↔ startsWith el.textContent (lit "You") = true) ∧
    (startsWith el.textContent (lit "You") = false → Userscript.inferRole el = Role.Assistant) ∧
    (∀ (other : Dom) (m : Str) (r : Role),
      other.attr (lit "data-message-author-role") = some m → markerRole m = some r →
        Userscript.inferRole other = r) := by
  have hval : Userscript.inferRole el =
      if startsWith el.textContent (lit "You") = true then Role.User else Role.Assistant := by
    unfold Userscript.inferRole
    cases hattr : el.attr (lit "data-message-author-role") with
    | none => simp
    | some m =>
      obtain ⟨h1, h2, h3⟩ := h m hattr
      simp [h1, h2, h3]
  refine ⟨?_, ?_, ?_⟩
  · rw [hval]; split <;> simp_all
  · intro hs; rw [hval]; simp [hs]
  · intro other m r hattr hr
    have hne : ∀ p : Str, p ≠ [] → includes m p = true → m ≠ [] := by
      intro p hp hi h0
      rw [h0, includes_nil_false p hp] at hi
      exact Bool.false_ne_true hi
    unfold markerRole at hr
    unfold Userscript.inferRole
    split at hr
    · rename_i hu
      have := hne _ (by decide) hu
      simp_all
    · split at hr
      · rename_i hu ha
        have := hne _ (by decide) ha
        simp_all
      · split at hr
        · rename_i hu ha hs
          have := hne _ (by decide) hs
          simp_all
        · exact absurd hr (by simp)

/-- Witness of C19: a node without marker whose text begins with `You`. -/
theorem userscript_inferRole_by_text_witness :
    Userscript.inferRole (Dom.elem (lit "article") [] [Dom.text (lit "You said: hi")]) =
      Role.User :=
  have hnone : (Dom.elem (lit "article") [] [Dom.text (lit "You said: hi")]).attr
      (lit "data-message-author-role") = none := rfl
  (userscript_inferRole_by_text (Dom.elem (lit "article") [] [Dom.text (lit "You said: hi")])
    (fun m hm => absurd (hnone.symm.trans hm) (by simp))).1.mpr (by decide)

/-! ## Title resolution -/

theorem includes_iff (s p : Str) : includes s p = true ↔ p <:+: s := by
  unfold includes
  rw [List.any_eq_true, List.infix_iff_prefix_suffix]
  constructor
  · rintro ⟨t, ht, hp⟩
    exact ⟨t, List.isPrefixOf_iff_prefix.mp hp, (List.mem_tails t s).mp ht⟩
  · rintro ⟨t, hp, ht⟩
    exact ⟨t, (List.mem_tails t s).mpr ht, List.isPrefixOf_iff_prefix.mpr hp⟩

/-- The canonical form of the literal of the title pattern. -/
theorem chatGPT_canonical :
    (lit " - ChatGPT").map canonicalize = [32, 45, 32, 67, 72, 65, 84, 71, 80, 84] := by
  decide

/-- The title pattern matches at the head of `s` exactly when the literal
stands there, letters in either case, and no line terminator follows. -/
theorem reChatGPTSuffix_eq (s : Str) :
    reChatGPTSuffix s =
      if [32, 45, 32, 67, 72, 65, 84, 71, 80, 84] <+: s.map canonicalize ∧
          ∀ c ∈ s.drop 10, isLineTerminator c = false
      then s.length else 0 := by
  unfold reChatGPTSuffix reLitCI
  rw [chatGPT_canonical]
  have hl : (lit " - ChatGPT").length = 10 := by decide
  rw [hl]
  by_cases h1 : [32, 45, 32, 67, 72, 65, 84, 71, 80, 84] <+: s.map canonicalize
  · by_cases h2 : ∀ c ∈ s.drop 10, isLineTerminator c = false
    · simp [h1, h2]
    · simp only [h1, h2, and_false, if_false]
      rw [if_neg]
      simp only [Bool.and_eq_true, List.all_eq_true, not_and]
      intro _ hall
      exact h2 (fun c hc => by simpa using hall c hc)
  · simp [h1]

/-- Where the pattern matches nowhere, the replacement changes nothing. -/
theorem replaceFirst_of_no_match (re : Str → Nat) (repl s : Str)
    (h : ∀ t, t <:+ s → re t = 0) : replaceFirst re repl s = s := by
  induction s with
  | nil => rfl
  | cons a s ih =>
    rw [replaceFirst, h (a :: s) (List.suffix_refl _)]
    simp only
    rw [ih (fun t ht => h t (ht.trans (List.suffix_cons _ _)))]

/-- Where the first match starts after `p` and runs to the end, the
replacement leaves `p` followed by the replacement text. -/
theorem replaceFirst_at (re : Str → Nat) (repl p u : Str) (hne : u ≠ [])
    (hu : re u = u.length) (hp : ∀ q, q ≠ [] → q <:+ p → re (q ++ u) = 0) :
    replaceFirst re repl (p ++ u) = p ++ repl := by
  induction p with
  | nil =>
    obtain ⟨c, rest, rfl⟩ := List.exists_cons_of_ne_nil hne
    rw [List.nil_append, replaceFirst, hu]
    simp
  | cons a p ih =>
    rw [List.cons_append, replaceFirst]
    have h0 := hp (a :: p) (by simp) (List.suffix_refl _)
    rw [List.cons_append] at h0
    rw [h0]
    simp only
    rw [ih (fun q hq hs => hp q hq (hs.trans (List.suffix_cons _ _)))]
    rfl

theorem reTest_eq_false_iff (re : Str → Nat) (s : Str) :
    reTest re s = false ↔ ∀ t, t <:+ s → re t = 0 := by
  unfold reTest
  rw [List.any_eq_false]
  constructor
  · intro h t ht
    have := h t ((List.mem_tails t s).mpr ht)
    simpa using this
  · intro h t ht
    simp [h t ((List.mem_tails t s).mp ht)]

/-- The literal of the title pattern does not overlap itself: it cannot start
in the last nine code units before an occurrence of itself. -/
theorem chatGPT_no_overlap (q rest : Str) (hq : q ≠ []) (hlen : q.length < 10)
    (h : [32, 45, 32, 67, 72, 65, 84, 71, 80, 84] <+:
      q ++ ([32, 45, 32, 67, 72, 65, 84, 71, 80, 84] ++ rest)) : False := by
  match q, hq, hlen with
  | [a1], _, _ => simp at h
  | [a1, a2], _, _ => simp at h
  | [a1, a2, a3], _, _ => simp at h
  | [a1, a2, a3, a4], _, _ => simp at h
  | [a1, a2, a3, a4, a5], _, _ => simp at h
  | [a1, a2, a3, a4, a5, a6], _, _ => simp at h
  | [a1, a2, a3, a4, a5, a6, a7], _, _ => simp at h
  | [a1, a2, a3, a4, a5, a6, a7, a8], _, _ => simp at h
  | [a1, a2, a3, a4, a5, a6, a7, a8, a9], _, _ => simp at h
  | a1 :: a2 :: a3 :: a4 :: a5 :: a6 :: a7 :: a8 :: a9 :: a10 :: t, _, hl =>
    simp at hl
    omega

/-- The code's expression on a title that ends in the product suffix. -/
theorem stripTitle_of_suffix (p sfx r : Str)
    (hs : sfx.map canonicalize = (lit " - ChatGPT").map canonicalize)
    (hr : ∀ c ∈ r, isLineTerminator c = false)
    (hp : includesCI p (lit " - ChatGPT") = false) :
    stripTitle (p ++ sfx ++ r) = orPlaceholder (trim p) := by
  rw [chatGPT_canonical] at hs
  have hl : sfx.length = 10 := by
    have := congrArg List.length hs
    simpa using this
  have hne : sfx ++ r ≠ [] := by
    intro h0
    have := congrArg List.length h0
    simp [hl] at this
  have hu : reChatGPTSuffix (sfx ++ r) = (sfx ++ r).length := by
    rw [reChatGPTSuffix_eq, if_pos]
    refine ⟨?_, ?_⟩
    · rw [List.map_append, hs]; exact List.prefix_append _ _
    · rw [List.drop_append_eq_append_drop, hl, List.drop_of_length_le (by omega)]
      simpa using hr
  have hearlier : ∀ q, q ≠ [] → q <:+ p → reChatGPTSuffix (q ++ (sfx ++ r)) = 0 := by
    intro q hq hsuf
    rw [reChatGPTSuffix_eq, if_neg]
    rintro ⟨hpre, -⟩
    rw [List.map_append, List.map_append, hs] at hpre
    by_cases hlen : q.length < 10
    · exact chatGPT_no_overlap (q.map canonicalize) (r.map canonicalize) (by simpa using hq)
        (by simpa using hlen) hpre
    · have h1 : [32, 45, 32, 67, 72, 65, 84, 71, 80, 84] <+: q.map canonicalize :=
        List.prefix_of_prefix_length_le hpre (List.prefix_append _ _) (by simp; omega)
      have h2 : q.map canonicalize <:+ p.map canonicalize := by
        obtain ⟨t, rfl⟩ := hsuf
        rw [List.map_append]
        exact List.suffix_append _ _
      have h3 : includesCI p (lit " - ChatGPT") = true := by
        unfold includesCI
        rw [includes_iff, chatGPT_canonical]
        exact List.infix_iff_prefix_suffix.mpr ⟨_, h1, h2⟩
      rw [hp] at h3
      exact Bool.false_ne_true h3
  unfold stripTitle
  rw [List.append_assoc, replaceFirst_at reChatGPTSuffix [] p (sfx ++ r) hne hu hearlier,
    List.append_nil]

/-- The code's expression on a title in which the pattern matches nowhere. -/
theorem stripTitle_of_no_match (raw : Str) (h : reTest reChatGPTSuffix raw = false) :
    stripTitle raw = orPlaceholder (trim raw) := by
  unfold stripTitle
  rw [replaceFirst_of_no_match _ _ _ ((reTest_eq_false_iff _ _).mp h)]

/-- `getTitle` of the userscript in one expression: the trimmed text of the
first visible title element when that is not empty, the stripped document
title otherwise. -/
theorem getTitle_eq (documentTitle : Str) (doc : Document) :
    Userscript.getTitle documentTitle doc =
      if trim (firstText selVisibleTitle doc) ≠ [] then trim (firstText selVisibleTitle doc)
      else stripTitle documentTitle := by
  unfold Userscript.getTitle firstText
  cases (querySelectorAll selVisibleTitle doc).head? with
  | none => simp [trim, trimStart, trimEnd]
  | some h1 => rfl

theorem trim_eq_nil_iff (s : Str) : trim s = [] ↔ ∀ c ∈ s, isWhiteSpace c = true := by
  constructor
  · intro h
    have h1 : ∀ c ∈ trimStart s, isWhiteSpace c = true := by
      have := (List.rdropWhile_eq_nil_iff (p := isWhiteSpace) (l := trimStart s)).mp
        (by simpa [trim, trimEnd, List.rdropWhile] using h)
      exact this
    have h2 : trimStart s = [] := by
      cases hts : trimStart s with
      | nil => rfl
      | cons a l =>
        have ha := trimStart_head s a (by rw [hts]; rfl)
        rw [h1 a (by rw [hts]; exact List.mem_cons_self _ _)] at ha
        exact absurd ha (by decide)
    simpa [trimStart] using h2
  · intro h
    have h2 : trimStart s = [] := by simpa [trimStart] using h
    rw [trim, h2]
    rfl

theorem orPlaceholder_ne_nil (x : Str) : orPlaceholder x ≠ [] := by
  unfold orPlaceholder
  split
  · decide
  · assumption

theorem trimmed_placeholder : Trimmed placeholderTitle := by
  constructor
  · intro c hc
    have : c = 67 := by simpa [placeholderTitle, lit] using hc.symm
    subst this; decide
  · intro c hc
    have : c = 110 := by simpa [placeholderTitle, lit] using hc.symm
    subst this; decide

theorem trimmed_orPlaceholder_trim (x : Str) : Trimmed (orPlaceholder (trim x)) := by
  unfold orPlaceholder
  split
  · exact trimmed_placeholder
  · exact trimmed_trim x

/-- A non-empty trimmed text has a code unit that is not white space. -/
theorem exists_not_whiteSpace (s : Str) (hne : s ≠ []) (ht : Trimmed s) :
    ∃ c ∈ s, isWhiteSpace c = false := by
  obtain ⟨a, l, rfl⟩ := List.exists_cons_of_ne_nil hne
  exact ⟨a, List.mem_cons_self _ _, ht.1 a rfl⟩

/-- The title pattern matches nowhere in a text of white space: its second
code unit is a hyphen. -/
theorem reChatGPTSuffix_of_blank (raw : Str) (h : ∀ c ∈ raw, isWhiteSpace c = true) :
    ∀ t, t <:+ raw → reChatGPTSuffix t = 0 := by
  intro t ht
  rw [reChatGPTSuffix_eq, if_neg]
  rintro ⟨hpre, -⟩
  match t, ht, hpre with
  | [], _, hpre => simp at hpre
  | [a], _, hpre => simp at hpre
  | a :: b :: t, ht, hpre =>
    simp only [List.map_cons, List.cons_prefix_cons] at hpre
    have hb : b = 45 := by
      have := hpre.2.1
      unfold canonicalize at this
      split at this <;> omega
    have hmem : b ∈ raw := ht.subset (by simp)
    have := h b hmem
    rw [hb] at this
    exact absurd this (by decide)

theorem stripTitle_of_blank (raw : Str) (h : trim raw = []) : stripTitle raw = placeholderTitle := by
  unfold stripTitle
  rw [replaceFirst_of_no_match _ _ _ (reChatGPTSuffix_of_blank raw ((trim_eq_nil_iff raw).mp h)), h]
  rfl

/-- C15, as stated, fails: the userscript returns the text of a visible title
element trimmed and with its product suffix; and a title of white space (which
has no suffix) is resolved to the placeholder, not to its trimmed self. -/
theorem title_suffix_not_always_stripped :
    Userscript.getTitle (lit "My Chat - ChatGPT") titledDoc = lit "My Chat - ChatGPT" ∧
    Userscript.getTitle (lit "My Chat - ChatGPT") titledDoc ≠ lit "My Chat" ∧
    stripTitle (lit "  ") = lit "ChatGPT Conversation" ∧
    stripTitle (lit "  ") ≠ trim (lit "  ") := by
  decide

/-- C15, amended. Let the raw title be `p ++ sfx ++ r`, where `sfx` is
` - ChatGPT` with letters in either case, `r` has no line terminator and
` - ChatGPT` does not occur in `p` in either case. The expression that both
files apply resolves it to `p` trimmed, or to the placeholder when that is
empty: so does convert.js for its `rawTitle`, and the userscript for
`document.title` when no visible title element has text. When a visible title
element has text, the userscript returns that text trimmed, without stripping.
A title in which the pattern matches nowhere is resolved to its trimmed self,
or to the placeholder when that is empty. -/
theorem title_suffix_stripped (p sfx r : Str)
    (hs : sfx.map canonicalize = (lit " - ChatGPT").map canonicalize)
    (hr : ∀ c ∈ r, isLineTerminator c = false)
    (hp : includesCI p (lit " - ChatGPT") = false) :
    stripTitle (p ++ sfx ++ r) = orPlaceholder (trim p) ∧
    (∀ doc, Convert.rawTitle doc = p ++ sfx ++ r → Convert.title doc = orPlaceholder (trim p)) ∧
    (∀ doc, trim (firstText selVisibleTitle doc) = [] →
      Userscript.getTitle (p ++ sfx ++ r) doc = orPlaceholder (trim p)) ∧
    (∀ doc documentTitle, trim (firstText selVisibleTitle doc) ≠ [] →
      Userscript.getTitle documentTitle doc = trim (firstText selVisibleTitle doc)) ∧
    (∀ raw, reTest reChatGPTSuffix raw = false → stripTitle raw = orPlaceholder (trim raw)) := by
  have h1 := stripTitle_of_suffix p sfx r hs hr hp
  refine ⟨h1, ?_, ?_, ?_, stripTitle_of_no_match⟩
  · intro doc hdoc
    rw [Convert.title, hdoc, h1]
  · intro doc hdoc
    rw [getTitle_eq, if_neg (by simpa using hdoc), h1]
  · intro doc documentTitle hdoc
    rw [getTitle_eq, if_pos hdoc]

/-- Witness of C15 amended: `My Chat - ChatGPT` resolves to `My Chat`. -/
theorem title_suffix_stripped_witness :
    stripTitle (lit "My Chat" ++ lit " - ChatGPT" ++ []) = lit "My Chat" :=
  (title_suffix_stripped (lit "My Chat") (lit " - ChatGPT") [] rfl (by simp) (by decide)).1.trans
    (by decide)

/-- C16. For every raw title, the title that either front end resolves is not
empty, has no white space at its ends, and so is not only white space. It is
the placeholder `ChatGPT Conversation` when the raw title is empty or only
white space, before or after the suffix is stripped, and the stripped and
trimmed raw title otherwise. -/
theorem title_never_blank (raw documentTitle : Str) (doc : Document) :
    (stripTitle raw ≠ [] ∧ Trimmed (stripTitle raw) ∧
      ∃ c ∈ stripTitle raw, isWhiteSpace c = false) ∧
    (trim raw = [] → stripTitle raw = placeholderTitle) ∧
    (trim (replaceFirst reChatGPTSuffix [] raw) = [] → stripTitle raw = placeholderTitle) ∧
    (trim (replaceFirst reChatGPTSuffix [] raw) ≠ [] →
      stripTitle raw = trim (replaceFirst reChatGPTSuffix [] raw)) ∧
    (Convert.title doc ≠ [] ∧ Trimmed (Convert.title doc) ∧
      (trim (firstText selAnyTitle doc) = [] → Convert.title doc = placeholderTitle)) ∧
    (Userscript.getTitle documentTitle doc ≠ [] ∧
      Trimmed (Userscript.getTitle documentTitle doc) ∧
      (trim (firstText selVisibleTitle doc) = [] → trim documentTitle = [] →
        Userscript.getTitle documentTitle doc = placeholderTitle)) := by
  have hne : ∀ x, stripTitle x ≠ [] := fun x => orPlaceholder_ne_nil _
  have htr : ∀ x, Trimmed (stripTitle x) := fun x => trimmed_orPlaceholder_trim _
  refine ⟨⟨hne raw, htr raw, exists_not_whiteSpace _ (hne raw) (htr raw)⟩,
    stripTitle_of_blank raw, ?_, ?_, ⟨hne _, htr _, ?_⟩, ?_, ?_, ?_⟩
  · intro h; simp [stripTitle, orPlaceholder, h]
  · intro h; simp [stripTitle, orPlaceholder, h]
  · intro h
    have : Convert.rawTitle doc = placeholderTitle := by
      simp [Convert.rawTitle, orPlaceholder, h]
    rw [Convert.title, this]
    decide
  · rw [getTitle_eq]
    split
    · assumption
    · exact hne _
  · rw [getTitle_eq]
    split
    · exact trimmed_trim _
    · exact htr _
  · intro h1 h2
    rw [getTitle_eq, if_neg (by simpa using h1)]
    exact stripTitle_of_blank _ h2

/-- Witness of C16: a title of white space resolves to the placeholder. -/
theorem title_never_blank_witness :
    stripTitle (lit " \n ") = lit "ChatGPT Conversation" :=
  (title_never_blank (lit " \n ") [] []).2.1 (by decide)

end HtmlToMd
